import Mathlib

/-!
Verification of the flowchart translator: a shallow embedding of
`flow.py` (the node arena), `parser_flow.py` (tokenizer and the
grammar actions that build the control-flow graph), `flow_cgen.py`
(the graph-to-C regenerator) and the `is_real` classifier of `gui.py`.
Python object identity becomes id-indexed lookup in an arena list;
the process-wide `FlowNode._counter` becomes explicit `BuildState`.
-/

/-- Node kinds of `flow.py`: `StartNode`, `EndNode`, `OperationNode` (with its
pseudo-C `code`) and `ConditionNode` (with `cond_code` and the two branch
fields, stored as node ids into the arena). -/
inductive NodeKind where
  | startNode : NodeKind
  | endNode : NodeKind
  | operationNode (code : String) : NodeKind
  | conditionNode (cond_code : String) (true_branch false_branch : Option Nat) : NodeKind
deriving DecidableEq, Repr

/-- A `FlowNode` of `flow.py`: identity `id` drawn from the counter, the
`label` set by the subclass constructor, the sequential successor list
`next` (node ids), and the kind payload. -/
structure FlowNode where
  id : Nat
  label : String
  next : List Nat
  kind : NodeKind
deriving DecidableEq, Repr

/-- Builder state: the `FlowNode._counter` id source and the arena of all
nodes created so far. -/
structure BuildState where
  counter : Nat
  arena : List FlowNode
deriving Repr

/-- A fresh translation state: counter 0, empty arena. -/
def initState : BuildState := ⟨0, []⟩

/-- Allocate a fresh node (`FlowNode.__init__`): its id is the current
counter value, `next` starts empty. -/
def newNode (label : String) (kind : NodeKind) (s : BuildState) : Nat × BuildState :=
  (s.counter, ⟨s.counter + 1, s.arena ++ [⟨s.counter, label, [], kind⟩]⟩)

/-- `FlowNode.connect`: append `b` to the `next` list of the node with id `a`. -/
def connect (a b : Nat) (s : BuildState) : BuildState :=
  ⟨s.counter, s.arena.map (fun n => if n.id = a then { n with next := n.next ++ [b] } else n)⟩

/-- The assignment `cond.true_branch = t` on the condition node with id `c`. -/
def setTrue (c t : Nat) (s : BuildState) : BuildState :=
  ⟨s.counter, s.arena.map (fun n =>
    if n.id = c then
      match n.kind with
      | .conditionNode cc _ fb => { n with kind := .conditionNode cc (some t) fb }
      | k => { n with kind := k }
    else n)⟩

/-- The assignment `cond.false_branch = f` on the condition node with id `c`. -/
def setFalse (c f : Nat) (s : BuildState) : BuildState :=
  ⟨s.counter, s.arena.map (fun n =>
    if n.id = c then
      match n.kind with
      | .conditionNode cc tb _ => { n with kind := .conditionNode cc tb (some f) }
      | k => { n with kind := k }
    else n)⟩

/-- `FlowSegment` of `parser_flow.py`: entry node id and exit node id of a
control-flow fragment. -/
structure FlowSegment where
  first : Nat
  last : Nat
deriving DecidableEq, Repr

mutual
/-- Parse trees of the statement grammar of `parser_flow.py`. Expression
operands are already strings: the `p_expr_*` actions rewrite expressions to C
text during parsing, so statements carry rendered expression text. `ioStmt`
carries the builtin name token text (`writeln`, `write`, `readln`, `read`). -/
inductive Stmt where
  | assign (x e : String) : Stmt
  | ifThen (c : String) (t : Stmt) : Stmt
  | ifThenElse (c : String) (t e : Stmt) : Stmt
  | whileStmt (c : String) (body : Stmt) : Stmt
  | forStmt (v lo : String) (downto : Bool) (hi : String) (body : Stmt) : Stmt
  | repeatStmt (body : StmtList) (c : String) : Stmt
  | ioStmt (f : String) (args : List String) : Stmt
  | blockStmt (body : StmtList) : Stmt
  | emptyStmt : Stmt
/-- The left-recursive `stmt_list : stmt | stmt_list SEMI stmt`. -/
inductive StmtList where
  | single (s : Stmt) : StmtList
  | snoc (l : StmtList) (s : Stmt) : StmtList
end

/-- Python `str.lower()` on ASCII text, character by character (kept at the
list level so that concrete proofs can evaluate it). -/
def lowerString (s : String) : String := ⟨s.toList.map Char.toLower⟩

/-- Python `str.rstrip()`: drop trailing whitespace characters. -/
def rstrip (s : String) : String := ⟨(s.toList.reverse.dropWhile Char.isWhitespace).reverse⟩

/-- `p_io_stmt` for `writeln` and `write`: one printf of all arguments; the
format repeats `%d ` once per argument and is right-stripped, and the
generated code always ends the format with the two characters backslash-n. -/
def printfCode (args : List String) : String :=
  let fmt := rstrip (String.join (List.replicate args.length "%d "))
  "printf(\"" ++ fmt ++ "\\n\", " ++ String.intercalate ", " args ++ ");"

/-- `p_io_stmt` for `readln` and `read`: one scanf per variable, joined by
single spaces into one code string. -/
def scanfCode (args : List String) : String :=
  String.intercalate " " (args.map (fun v => "scanf(\"%d\", &" ++ v ++ ");"))

/-- The code string built by `p_io_stmt`, dispatching on the lowered builtin
name exactly as the Python source does. -/
def ioCode (f : String) (args : List String) : String :=
  if lowerString f = "writeln" ∨ lowerString f = "write" then printfCode args else scanfCode args

mutual
/-- The statement-building actions of `parser_flow.py` (`p_assign_stmt`,
`p_if_stmt`, `p_while_stmt`, `p_for_stmt`, `p_repeat_stmt`, `p_io_stmt`,
`p_block`, and the empty-statement branch of `p_stmt`), with node creation
and edge stitching in the order the Python action bodies perform them;
sub-statement fragments are built first, as yacc reduces bottom-up. -/
def buildStmt : Stmt → BuildState → FlowSegment × BuildState
  | .assign x e, s =>
      let (n, s) := newNode "OP" (.operationNode (x ++ " = " ++ e ++ ";")) s
      (⟨n, n⟩, s)
  | .ifThen c t, s =>
      let (tseg, s) := buildStmt t s
      let (cond, s) := newNode "COND" (.conditionNode c none none) s
      let s := setTrue cond tseg.first s
      let (join, s) := newNode "OP" (.operationNode "/* join */") s
      let s := setFalse cond join s
      let s := connect tseg.last join s
      (⟨cond, join⟩, s)
  | .ifThenElse c t e, s =>
      let (tseg, s) := buildStmt t s
      let (eseg, s) := buildStmt e s
      let (cond, s) := newNode "COND" (.conditionNode c none none) s
      let s := setTrue cond tseg.first s
      let s := setFalse cond eseg.first s
      let (join, s) := newNode "OP" (.operationNode "/* join */") s
      let s := connect tseg.last join s
      let s := connect eseg.last join s
      (⟨cond, join⟩, s)
  | .whileStmt c body, s =>
      let (bseg, s) := buildStmt body s
      let (cond, s) := newNode "COND" (.conditionNode c none none) s
      let s := setTrue cond bseg.first s
      let s := connect bseg.last cond s
      let (after, s) := newNode "OP" (.operationNode "/* after while */") s
      let s := setFalse cond after s
      (⟨cond, after⟩, s)
  | .forStmt v lo downto hi body, s =>
      let (bseg, s) := buildStmt body s
      let (init, s) := newNode "OP" (.operationNode (v ++ " = " ++ lo ++ ";")) s
      let condCode := if downto then v ++ " >= " ++ hi else v ++ " <= " ++ hi
      let (cond, s) := newNode "COND" (.conditionNode condCode none none) s
      let stepCode := if downto then v ++ "--;" else v ++ "++;"
      let (step, s) := newNode "OP" (.operationNode stepCode) s
      let s := connect init cond s
      let s := setTrue cond bseg.first s
      let s := connect bseg.last step s
      let s := connect step cond s
      let (after, s) := newNode "OP" (.operationNode "/* after for */") s
      let s := setFalse cond after s
      (⟨init, after⟩, s)
  | .repeatStmt body c, s =>
      let (bseg, s) := buildStmtList body s
      let (cond, s) := newNode "COND" (.conditionNode c none none) s
      let s := connect bseg.last cond s
      let (after, s) := newNode "OP" (.operationNode "/* after repeat */") s
      let s := setTrue cond after s
      let s := setFalse cond bseg.first s
      (⟨bseg.first, after⟩, s)
  | .ioStmt f args, s =>
      let (n, s) := newNode "OP" (.operationNode (ioCode f args)) s
      (⟨n, n⟩, s)
  | .blockStmt body, s => buildStmtList body s
  | .emptyStmt, s =>
      let (n, s) := newNode "OP" (.operationNode "/* empty */") s
      (⟨n, n⟩, s)
/-- `p_stmt_list`: sequencing connects the previous exit to the next entry. -/
def buildStmtList : StmtList → BuildState → FlowSegment × BuildState
  | .single st, s => buildStmt st s
  | .snoc l st, s =>
      let (seg1, s) := buildStmtList l s
      let (seg2, s) := buildStmt st s
      let s := connect seg1.last seg2.first s
      (⟨seg1.first, seg2.last⟩, s)
end

/-- The program wrapper `p_program`: after the body is built, a Start and an
End marker are created and stitched around it. -/
def buildProgram (p : StmtList) (s : BuildState) : FlowSegment × BuildState :=
  let (seg, s) := buildStmtList p s
  let (start, s) := newNode "START" .startNode s
  let (endn, s) := newNode "END" .endNode s
  let s := connect start seg.first s
  let s := connect seg.last endn s
  (⟨start, endn⟩, s)

/-- Generator state of `FlowCGenerator`: emitted lines, current indent level
and the visited id set (a list with membership semantics). -/
structure GenState where
  lines : List String
  indent_level : Nat
  visited : List Nat
deriving Repr

/-- `FlowCGenerator.indent`: four spaces per indent level. -/
def indentOf (n : Nat) : String := ⟨List.replicate (4 * n) ' '⟩

/-- `FlowCGenerator.emit`: append one indented line. -/
def emit (st : GenState) (line : String) : GenState :=
  { st with lines := st.lines ++ [indentOf st.indent_level ++ line] }

/-- Arena lookup by node id. -/
def findNode (g : List FlowNode) (i : Nat) : Option FlowNode :=
  g.find? (fun n => n.id == i)

/-- Sequencing of fallible generator steps (`none` = fuel ran out). -/
def obind : Option GenState → (GenState → Option GenState) → Option GenState
  | none, _ => none
  | some st, f => f st

/-- The `for nxt in node.next: self._walk(nxt)` loops of `_walk`: apply the
stepper to each successor in turn, threading the generator state. -/
def walkSeq (f : GenState → Nat → Option GenState) : GenState → List Nat → Option GenState
  | st, [] => some st
  | st, n :: ns => obind (f st n) (fun st1 => walkSeq f st1 ns)

/-- `FlowCGenerator._walk`, with explicit fuel bounding the recursion depth
over the possibly-cyclic arena; `none` means the fuel ran out, which never
happens for the fuel chosen in `generateLines` (proved below). -/
def walk (g : List FlowNode) : Nat → GenState → Nat → Option GenState
  | 0, _, _ => none
  | fuel + 1, st, nid =>
    if nid ∈ st.visited then some st
    else
      let st := { st with visited := nid :: st.visited }
      match findNode g nid with
      | none => some st
      | some node =>
        match node.kind with
        | .operationNode code => walkSeq (walk g fuel) (emit st code) node.next
        | .conditionNode cond_code tb fb =>
          let st := emit st ("if (" ++ cond_code ++ ") \x7b")
          let st := { st with indent_level := st.indent_level + 1 }
          obind (match tb with
                 | some t => walk g fuel st t
                 | none => some st) (fun st1 =>
            let st2 := { st1 with indent_level := st1.indent_level - 1 }
            match fb with
            | some f =>
              let st3 := emit st2 "\x7d else \x7b"
              let st4 := { st3 with indent_level := st3.indent_level + 1 }
              obind (walk g fuel st4 f) (fun st5 =>
                let st6 := { st5 with indent_level := st5.indent_level - 1 }
                walkSeq (walk g fuel) (emit st6 "\x7d") node.next)
            | none => walkSeq (walk g fuel) (emit st2 "\x7d") node.next)
        | _ => walkSeq (walk g fuel) st node.next

/-- `FlowCGenerator.generate` as the list of emitted lines: the scaffold
around the walk, with fuel `g.length + 1`. -/
def generateLines (g : List FlowNode) (startId : Nat) : Option (List String) :=
  let st : GenState := ⟨[], 0, []⟩
  let st := emit st "#include <stdio.h>"
  let st := emit st ""
  let st := emit st "int main() \x7b"
  let st := { st with indent_level := st.indent_level + 1 }
  match walk g (g.length + 1) st startId with
  | none => none
  | some st1 =>
    let st2 := emit st1 "return 0;"
    let st3 := { st2 with indent_level := st2.indent_level - 1 }
    let st4 := emit st3 "\x7d"
    some st4.lines

/-- `FlowCGenerator.generate`: the emitted lines joined with newlines. -/
def generate (g : List FlowNode) (startId : Nat) : Option String :=
  (generateLines g startId).map (String.intercalate "\n")

/-- `SERVICE_MARKERS` of `gui.py`. -/
def SERVICE_MARKERS : List String :=
  ["/* empty */", "/* join */", "/* after while */", "/* after for */"]

/-- `gui.is_real`: Start, End and Condition nodes are real; an Operation node
is real unless one of the service markers occurs in its code (a substring
test, as the Python `in` operator). The Python `return False` fallback for a
bare `FlowNode` is unreachable here because the kind set is closed. -/
def is_real (n : FlowNode) : Bool :=
  match n.kind with
  | .startNode => true
  | .endNode => true
  | .conditionNode _ _ _ => true
  | .operationNode code => ! SERVICE_MARKERS.any (fun m => decide (m.toList <:+: code.toList))

/-- Token types of the lexer in `parser_flow.py` (`tokens` plus the reserved
words). -/
inductive TokTy where
  | BEGIN | END | IF | THEN | ELSE | WHILE | DO | FOR | TO | DOWNTO | REPEAT | UNTIL
  | WRITELN | WRITE | READLN | READ | VAR | INTEGER | REAL | BOOLEAN
  | AND | OR | NOT | DIV | MOD
  | ID | INT | FLOAT
  | PLUS | MINUS | TIMES | DIVIDE | ASSIGN
  | EQ | NE | LT | LE | GT | GE
  | LPAREN | RPAREN | SEMI | COLON | COMMA | DOT
deriving DecidableEq, Repr

/-- A token: its type and its value text. For `INT` the value is the decimal
rendering of the parsed integer (Python stores `int(text)`, and later string
conversion reproduces the canonical decimal form); for `FLOAT` the literal
text is kept as matched (Python float round-tripping is not modelled; no
claim involves real literals); keywords and identifiers keep the original
spelling, as `t_ID` only rewrites the type, not the value. -/
structure Token where
  typ : TokTy
  value : String
deriving DecidableEq, Repr

/-- The `reserved` keyword table of `parser_flow.py`, keyed by the lowered
identifier text. -/
def reserved : List (String × TokTy) :=
  [("begin", .BEGIN), ("end", .END), ("if", .IF), ("then", .THEN), ("else", .ELSE),
   ("while", .WHILE), ("do", .DO), ("for", .FOR), ("to", .TO), ("downto", .DOWNTO),
   ("repeat", .REPEAT), ("until", .UNTIL), ("writeln", .WRITELN), ("write", .WRITE),
   ("readln", .READLN), ("read", .READ), ("var", .VAR), ("integer", .INTEGER),
   ("real", .REAL), ("boolean", .BOOLEAN), ("and", .AND), ("or", .OR), ("not", .NOT),
   ("div", .DIV), ("mod", .MOD)]

/-- A lexical failure of `t_error`: the offending character and its line. -/
structure LexErr where
  char : Char
  line : Nat
deriving DecidableEq, Repr

/-- The message raised by `t_error`. -/
def renderLexErr (e : LexErr) : String :=
  "Illegal character '" ++ String.singleton e.char ++ "' at line " ++ toString e.line

def isIdStart (c : Char) : Bool := c.isAlpha || c = '_'

def isIdChar (c : Char) : Bool := c.isAlphanum || c = '_'

/-- Digit text to the number it denotes. -/
def digitsToNat (ds : List Char) : Nat :=
  ds.foldl (fun a c => 10 * a + (c.toNat - 48)) 0

/-- The tokenizer of `parser_flow.py`: skips the `t_ignore` characters, counts
lines in `t_newline` (newlines inside brace comments do not bump the line
counter, as `t_comment` leaves it untouched), discards brace comments,
distinguishes `FLOAT` from `INT` by a decimal point followed by a digit,
classifies identifier words through the case-insensitive `reserved` table,
matches the two-character operators before their one-character prefixes, and
fails on any other character with that character and the current line. An
unterminated comment fails at the opening brace, as the master regex then
matches nothing there. -/
def tokenizeAux (fuel : Nat) (cs : List Char) (line : Nat) : Except LexErr (List Token) :=
  match fuel with
  | 0 => .ok []
  | fuel + 1 =>
    match cs with
    | [] => .ok []
    | c :: rest =>
      if c = ' ' ∨ c = '\t' ∨ c = '\r' then tokenizeAux fuel rest line
      else if c = '\n' then tokenizeAux fuel rest (line + 1)
      else if c = '\x7b' then
        match rest.dropWhile (fun d => d ≠ '\x7d') with
        | [] => .error ⟨c, line⟩
        | _ :: rem => tokenizeAux fuel rem line
      else if c.isDigit then
        let ds := c :: rest.takeWhile Char.isDigit
        match rest.dropWhile Char.isDigit with
        | '.' :: d2 :: rem2 =>
          if d2.isDigit then
            let frac := d2 :: rem2.takeWhile Char.isDigit
            match tokenizeAux fuel (rem2.dropWhile Char.isDigit) line with
            | .ok ts => .ok (⟨.FLOAT, ⟨ds⟩ ++ "." ++ ⟨frac⟩⟩ :: ts)
            | .error e => .error e
          else
            match tokenizeAux fuel ('.' :: d2 :: rem2) line with
            | .ok ts => .ok (⟨.INT, toString (digitsToNat ds)⟩ :: ts)
            | .error e => .error e
        | rem =>
          match tokenizeAux fuel rem line with
          | .ok ts => .ok (⟨.INT, toString (digitsToNat ds)⟩ :: ts)
          | .error e => .error e
      else if isIdStart c then
        let w : String := ⟨c :: rest.takeWhile isIdChar⟩
        let rem := rest.dropWhile isIdChar
        let tok : Token :=
          match reserved.lookup (lowerString w) with
          | some ty => ⟨ty, w⟩
          | none => ⟨.ID, w⟩
        match tokenizeAux fuel rem line with
        | .ok ts => .ok (tok :: ts)
        | .error e => .error e
      else if c = ':' ∧ rest.head? = some '=' then
        match tokenizeAux fuel rest.tail line with
        | .ok ts => .ok (⟨.ASSIGN, ":="⟩ :: ts)
        | .error e => .error e
      else if c = '<' ∧ rest.head? = some '=' then
        match tokenizeAux fuel rest.tail line with
        | .ok ts => .ok (⟨.LE, "<="⟩ :: ts)
        | .error e => .error e
      else if c = '<' ∧ rest.head? = some '>' then
        match tokenizeAux fuel rest.tail line with
        | .ok ts => .ok (⟨.NE, "<>"⟩ :: ts)
        | .error e => .error e
      else if c = '>' ∧ rest.head? = some '=' then
        match tokenizeAux fuel rest.tail line with
        | .ok ts => .ok (⟨.GE, ">="⟩ :: ts)
        | .error e => .error e
      else
        let oneChar : Option Token :=
          if c = '+' then some ⟨.PLUS, "+"⟩
          else if c = '-' then some ⟨.MINUS, "-"⟩
          else if c = '*' then some ⟨.TIMES, "*"⟩
          else if c = '/' then some ⟨.DIVIDE, "/"⟩
          else if c = '=' then some ⟨.EQ, "="⟩
          else if c = '<' then some ⟨.LT, "<"⟩
          else if c = '>' then some ⟨.GT, ">"⟩
          else if c = '(' then some ⟨.LPAREN, "("⟩
          else if c = ')' then some ⟨.RPAREN, ")"⟩
          else if c = ';' then some ⟨.SEMI, ";"⟩
          else if c = ':' then some ⟨.COLON, ":"⟩
          else if c = ',' then some ⟨.COMMA, ","⟩
          else if c = '.' then some ⟨.DOT, "."⟩
          else none
        match oneChar with
        | some tok =>
          match tokenizeAux fuel rest line with
          | .ok ts => .ok (tok :: ts)
          | .error e => .error e
        | none => .error ⟨c, line⟩

/-- `lexer` entry: PLY line numbers start at 1. Every step of `tokenizeAux`
consumes at least one character before recursing, so the fuel chosen here is
never exhausted. -/
def tokenize (src : String) : Except LexErr (List Token) :=
  tokenizeAux (src.toList.length + 1) src.toList 1

/-- A syntax failure of `p_error`: the offending token, or end of input. -/
inductive SynErr where
  | atTok (t : Token) : SynErr
  | atEOF : SynErr
deriving DecidableEq, Repr

/-- The message raised by `p_error`. -/
def renderSynErr : SynErr → String
  | .atTok t => "Syntax error at '" ++ t.value ++ "'"
  | .atEOF => "Syntax error at EOF"

/-- `binop_to_c` of `parser_flow.py`: the rewrite table is keyed by the
lowered operator text; unmapped operators pass through unchanged. -/
def binop_to_c (op : String) : String :=
  match [("and", "&&"), ("or", "||"), ("div", "/"), ("mod", "%"),
         ("=", "=="), ("<>", "!=")].lookup (lowerString op) with
  | some r => r
  | none => op

/-- `make_bin_expr` of `parser_flow.py`. -/
def make_bin_expr (a op b : String) : String :=
  "(" ++ a ++ " " ++ binop_to_c op ++ " " ++ b ++ ")"

/-- Consume one token of the given type or fail at the found token. -/
def expectTok (ty : TokTy) (toks : List Token) : Except SynErr (List Token) :=
  match toks with
  | t :: r => if t.typ = ty then .ok r else .error (.atTok t)
  | [] => .error .atEOF

mutual
/-- Modelled from the spec: the table-driven LALR engine executing the
grammar is PLY library code, absent from this repository; these functions
follow the grammar productions and precedence declarations of
`parser_flow.py` directly, building the same string semantic values the
`p_expr_*` actions build, and failing at the first token no production can
continue with (or at end of input), as `p_error` reports. The fuel bounds
the recursion depth; exhaustion reports end of input and does not occur at
the fuel chosen in `parseProgramToks` for the inputs considered here. -/
def parseExpr (fuel : Nat) (toks : List Token) : Except SynErr (String × List Token) :=
  match fuel with
  | 0 => .error .atEOF
  | fuel + 1 => parseOr fuel toks
def parseOr (fuel : Nat) (toks : List Token) : Except SynErr (String × List Token) :=
  match fuel with
  | 0 => .error .atEOF
  | fuel + 1 => do
    let (a, r) ← parseAnd fuel toks
    parseOrRest fuel a r
def parseOrRest (fuel : Nat) (a : String) (toks : List Token) :
    Except SynErr (String × List Token) :=
  match fuel with
  | 0 => .error .atEOF
  | fuel + 1 =>
    match toks with
    | t :: r =>
      if t.typ = .OR then do
        let (b, r2) ← parseAnd fuel r
        parseOrRest fuel (make_bin_expr a t.value b) r2
      else .ok (a, toks)
    | [] => .ok (a, toks)
def parseAnd (fuel : Nat) (toks : List Token) : Except SynErr (String × List Token) :=
  match fuel with
  | 0 => .error .atEOF
  | fuel + 1 => do
    let (a, r) ← parseCmp fuel toks
    parseAndRest fuel a r
def parseAndRest (fuel : Nat) (a : String) (toks : List Token) :
    Except SynErr (String × List Token) :=
  match fuel with
  | 0 => .error .atEOF
  | fuel + 1 =>
    match toks with
    | t :: r =>
      if t.typ = .AND then do
        let (b, r2) ← parseCmp fuel r
        parseAndRest fuel (make_bin_expr a t.value b) r2
      else .ok (a, toks)
    | [] => .ok (a, toks)
def parseCmp (fuel : Nat) (toks : List Token) : Except SynErr (String × List Token) :=
  match fuel with
  | 0 => .error .atEOF
  | fuel + 1 => do
    let (a, r) ← parseAdd fuel toks
    parseCmpRest fuel a r
def parseCmpRest (fuel : Nat) (a : String) (toks : List Token) :
    Except SynErr (String × List Token) :=
  match fuel with
  | 0 => .error .atEOF
  | fuel + 1 =>
    match toks with
    | t :: r =>
      if t.typ = .EQ ∨ t.typ = .NE ∨ t.typ = .LT ∨ t.typ = .LE ∨ t.typ = .GT ∨ t.typ = .GE then do
        let (b, r2) ← parseAdd fuel r
        parseCmpRest fuel (make_bin_expr a t.value b) r2
      else .ok (a, toks)
    | [] => .ok (a, toks)
def parseAdd (fuel : Nat) (toks : List Token) : Except SynErr (String × List Token) :=
  match fuel with
  | 0 => .error .atEOF
  | fuel + 1 => do
    let (a, r) ← parseMul fuel toks
    parseAddRest fuel a r
def parseAddRest (fuel : Nat) (a : String) (toks : List Token) :
    Except SynErr (String × List Token) :=
  match fuel with
  | 0 => .error .atEOF
  | fuel + 1 =>
    match toks with
    | t :: r =>
      if t.typ = .PLUS ∨ t.typ = .MINUS then do
        let (b, r2) ← parseMul fuel r
        parseAddRest fuel (make_bin_expr a t.value b) r2
      else .ok (a, toks)
    | [] => .ok (a, toks)
def parseMul (fuel : Nat) (toks : List Token) : Except SynErr (String × List Token) :=
  match fuel with
  | 0 => .error .atEOF
  | fuel + 1 => do
    let (a, r) ← parseUnary fuel toks
    parseMulRest fuel a r
def parseMulRest (fuel : Nat) (a : String) (toks : List Token) :
    Except SynErr (String × List Token) :=
  match fuel with
  | 0 => .error .atEOF
  | fuel + 1 =>
    match toks with
    | t :: r =>
      if t.typ = .TIMES ∨ t.typ = .DIVIDE ∨ t.typ = .DIV ∨ t.typ = .MOD then do
        let (b, r2) ← parseUnary fuel r
        parseMulRest fuel (make_bin_expr a t.value b) r2
      else .ok (a, toks)
    | [] => .ok (a, toks)
def parseUnary (fuel : Nat) (toks : List Token) : Except SynErr (String × List Token) :=
  match fuel with
  | 0 => .error .atEOF
  | fuel + 1 =>
    match toks with
    | t :: r =>
      if t.typ = .MINUS then do
        let (e, r2) ← parseUnary fuel r
        .ok ("(-(" ++ e ++ "))", r2)
      else if t.typ = .NOT then do
        let (e, r2) ← parseUnary fuel r
        .ok ("!(" ++ e ++ ")", r2)
      else parsePrimary fuel toks
    | [] => .error .atEOF
def parsePrimary (fuel : Nat) (toks : List Token) : Except SynErr (String × List Token) :=
  match fuel with
  | 0 => .error .atEOF
  | fuel + 1 =>
    match toks with
    | ⟨.INT, v⟩ :: r => .ok (v, r)
    | ⟨.FLOAT, v⟩ :: r => .ok (v, r)
    | ⟨.ID, v⟩ :: r => .ok (v, r)
    | ⟨.LPAREN, _⟩ :: r => do
      let (e, r2) ← parseExpr fuel r
      let r3 ← expectTok .RPAREN r2
      .ok ("(" ++ e ++ ")", r3)
    | t :: _ => .error (.atTok t)
    | [] => .error .atEOF
end

mutual
/-- Modelled from the spec, like the expression functions above: the
statement productions of `parser_flow.py`, recognized by descent; the empty
production applies when no statement can start at the next token. -/
def parseStmt (fuel : Nat) (toks : List Token) : Except SynErr (Stmt × List Token) :=
  match fuel with
  | 0 => .error .atEOF
  | fuel + 1 =>
    match toks with
    | ⟨.ID, v⟩ :: r =>
      match r with
      | ⟨.ASSIGN, _⟩ :: r2 => do
        let (e, r3) ← parseExpr fuel r2
        .ok (.assign v e, r3)
      | t :: _ => .error (.atTok t)
      | [] => .error .atEOF
    | ⟨.IF, _⟩ :: r => do
      let (c, r1) ← parseExpr fuel r
      let r2 ← expectTok .THEN r1
      let (t, r3) ← parseStmt fuel r2
      match r3 with
      | ⟨.ELSE, _⟩ :: r4 => do
        let (e, r5) ← parseStmt fuel r4
        .ok (.ifThenElse c t e, r5)
      | _ => .ok (.ifThen c t, r3)
    | ⟨.WHILE, _⟩ :: r => do
      let (c, r1) ← parseExpr fuel r
      let r2 ← expectTok .DO r1
      let (b, r3) ← parseStmt fuel r2
      .ok (.whileStmt c b, r3)
    | ⟨.FOR, _⟩ :: r =>
      match r with
      | ⟨.ID, v⟩ :: ⟨.ASSIGN, _⟩ :: r2 => do
        let (lo, r3) ← parseExpr fuel r2
        match r3 with
        | ⟨.TO, _⟩ :: r4 => do
          let (hi, r5) ← parseExpr fuel r4
          let r6 ← expectTok .DO r5
          let (b, r7) ← parseStmt fuel r6
          .ok (.forStmt v lo false hi b, r7)
        | ⟨.DOWNTO, _⟩ :: r4 => do
          let (hi, r5) ← parseExpr fuel r4
          let r6 ← expectTok .DO r5
          let (b, r7) ← parseStmt fuel r6
          .ok (.forStmt v lo true hi b, r7)
        | t :: _ => .error (.atTok t)
        | [] => .error .atEOF
      | ⟨.ID, _⟩ :: t :: _ => .error (.atTok t)
      | t :: _ => .error (.atTok t)
      | [] => .error .atEOF
    | ⟨.REPEAT, _⟩ :: r => do
      let (l, r1) ← parseStmtList fuel r
      let r2 ← expectTok .UNTIL r1
      let (c, r3) ← parseExpr fuel r2
      .ok (.repeatStmt l c, r3)
    | ⟨.WRITELN, v⟩ :: r => parseIoTail fuel v false r
    | ⟨.WRITE, v⟩ :: r => parseIoTail fuel v false r
    | ⟨.READLN, v⟩ :: r => parseIoTail fuel v true r
    | ⟨.READ, v⟩ :: r => parseIoTail fuel v true r
    | ⟨.BEGIN, _⟩ :: r => do
      let (l, r1) ← parseStmtList fuel r
      let r2 ← expectTok .END r1
      .ok (.blockStmt l, r2)
    | _ => .ok (.emptyStmt, toks)
/-- The argument list and closing paren of an io statement; `isRead` selects
the `id_expr_list` form over the `expr_list` form. -/
def parseIoTail (fuel : Nat) (v : String) (isRead : Bool) (toks : List Token) :
    Except SynErr (Stmt × List Token) :=
  match fuel with
  | 0 => .error .atEOF
  | fuel + 1 => do
    let r ← expectTok .LPAREN toks
    let (args, r1) ← (if isRead then parseIdList fuel r else parseExprList fuel r)
    let r2 ← expectTok .RPAREN r1
    .ok (.ioStmt v args, r2)
def parseExprList (fuel : Nat) (toks : List Token) :
    Except SynErr (List String × List Token) :=
  match fuel with
  | 0 => .error .atEOF
  | fuel + 1 => do
    let (e, r) ← parseExpr fuel toks
    parseArgsRest fuel false [e] r
def parseIdList (fuel : Nat) (toks : List Token) :
    Except SynErr (List String × List Token) :=
  match fuel with
  | 0 => .error .atEOF
  | fuel + 1 =>
    match toks with
    | ⟨.ID, v⟩ :: r => parseArgsRest fuel true [v] r
    | t :: _ => .error (.atTok t)
    | [] => .error .atEOF
def parseArgsRest (fuel : Nat) (isRead : Bool) (acc : List String) (toks : List Token) :
    Except SynErr (List String × List Token) :=
  match fuel with
  | 0 => .error .atEOF
  | fuel + 1 =>
    match toks with
    | ⟨.COMMA, _⟩ :: r =>
      if isRead then
        match r with
        | ⟨.ID, v⟩ :: r2 => parseArgsRest fuel true (acc ++ [v]) r2
        | t :: _ => .error (.atTok t)
        | [] => .error .atEOF
      else do
        let (e, r2) ← parseExpr fuel r
        parseArgsRest fuel false (acc ++ [e]) r2
    | _ => .ok (acc, toks)
def parseStmtList (fuel : Nat) (toks : List Token) :
    Except SynErr (StmtList × List Token) :=
  match fuel with
  | 0 => .error .atEOF
  | fuel + 1 => do
    let (s, r) ← parseStmt fuel toks
    parseStmtListRest fuel (.single s) r
def parseStmtListRest (fuel : Nat) (acc : StmtList) (toks : List Token) :
    Except SynErr (StmtList × List Token) :=
  match fuel with
  | 0 => .error .atEOF
  | fuel + 1 =>
    match toks with
    | ⟨.SEMI, _⟩ :: r => do
      let (s, r2) ← parseStmt fuel r
      parseStmtListRest fuel (.snoc acc s) r2
    | _ => .ok (acc, toks)
end

/-- One or more `var_decl` groups (`id_list COLON type_name SEMI`), repeated
while another identifier begins a further group; the declarations carry no
semantic value (`p_var_decl` does nothing). -/
def parseVarDecls (fuel : Nat) (toks : List Token) : Except SynErr (List Token) :=
  match fuel with
  | 0 => .error .atEOF
  | fuel + 1 =>
    match toks with
    | ⟨.ID, _⟩ :: r =>
      match parseIdGroupRest fuel r with
      | .error e => .error e
      | .ok r1 =>
        match r1 with
        | ⟨.INTEGER, _⟩ :: r2 => afterType fuel r2
        | ⟨.REAL, _⟩ :: r2 => afterType fuel r2
        | ⟨.BOOLEAN, _⟩ :: r2 => afterType fuel r2
        | t :: _ => .error (.atTok t)
        | [] => .error .atEOF
    | t :: _ => .error (.atTok t)
    | [] => .error .atEOF
where
  /-- Consume `(COMMA ID)*` then the `COLON`. -/
  parseIdGroupRest (fuel : Nat) (toks : List Token) : Except SynErr (List Token) :=
    match fuel with
    | 0 => .error .atEOF
    | fuel + 1 =>
      match toks with
      | ⟨.COMMA, _⟩ :: ⟨.ID, _⟩ :: r => parseIdGroupRest fuel r
      | ⟨.COLON, _⟩ :: r => .ok r
      | t :: _ => .error (.atTok t)
      | [] => .error .atEOF
  /-- Consume the `SEMI` and continue with another declaration group if an
  identifier follows. -/
  afterType (fuel : Nat) (toks : List Token) : Except SynErr (List Token) :=
    match fuel with
    | 0 => .error .atEOF
    | fuel + 1 =>
      match toks with
      | ⟨.SEMI, _⟩ :: r =>
        match r with
        | ⟨.ID, _⟩ :: _ => parseVarDecls fuel r
        | _ => .ok r
      | t :: _ => .error (.atTok t)
      | [] => .error .atEOF

/-- The `program` production: optional var section, `BEGIN stmt_list END DOT`
and then end of input (any trailing token is a syntax error). -/
def parseProgramAux (fuel : Nat) (toks : List Token) : Except SynErr StmtList :=
  match (match toks with
         | ⟨.VAR, _⟩ :: r => parseVarDecls fuel r
         | _ => .ok toks) with
  | .error e => .error e
  | .ok toks1 =>
    match expectTok .BEGIN toks1 with
    | .error e => .error e
    | .ok toks2 =>
      match parseStmtList fuel toks2 with
      | .error e => .error e
      | .ok (l, toks3) =>
        match expectTok .END toks3 with
        | .error e => .error e
        | .ok toks4 =>
          match expectTok .DOT toks4 with
          | .error e => .error e
          | .ok toks5 =>
            match toks5 with
            | [] => .ok l
            | t :: _ => .error (.atTok t)

/-- Parse a whole token stream with generous fuel. -/
def parseProgramToks (toks : List Token) : Except SynErr StmtList :=
  parseProgramAux (8 * toks.length + 16) toks

/-- The end-to-end pipeline as `gui.on_translate` runs it: tokenize and parse
(`parse_pascal_to_flow`), then regenerate from the returned fragment entry
(`FlowCGenerator().generate(seg.first)`). A lexer or parser exception
propagates as its message and no output text is produced. The generator
fuel branch is provably dead (see `generateLines_isSome`). -/
def compile (src : String) : Except String String :=
  match tokenize src with
  | .error e => .error (renderLexErr e)
  | .ok toks =>
    match parseProgramToks toks with
    | .error e => .error (renderSynErr e)
    | .ok prog =>
      let (seg, st) := buildProgram prog initState
      match generate st.arena seg.first with
      | some text => .ok text
      | none => .error "generator out of fuel"

/-- One build of a whole program from a fresh counter, as consumers use it:
the final arena and the start node id. -/
def builtArena (p : StmtList) : List FlowNode := (buildProgram p initState).2.arena

/-- The id of the Entry marker of a freshly built program graph. -/
def builtStart (p : StmtList) : Nat := (buildProgram p initState).1.first

/-- The node ids of a freshly built program graph. -/
def builtIds (p : StmtList) : List Nat := (builtArena p).map FlowNode.id

/-- The reserved words, lowered, for identifier validity. -/
def reservedNames : List String := reserved.map Prod.fst

/-- An identifier as `t_ID` can produce it: nonempty, starting with a letter
or underscore, containing only letters, digits and underscores, and not a
keyword up to case. -/
def validId (s : String) : Bool :=
  match s.toList with
  | [] => false
  | c :: cs =>
    isIdStart c && cs.all isIdChar && !(reservedNames.contains ⟨s.toList.map Char.toLower⟩)

mutual
/-- The aspects of grammar-producible statements the theorems rely on:
assignment targets and loop variables are identifier tokens, io argument
lists are nonempty (both `expr_list` and `id_expr_list` derive at least one
element). -/
def validStmt : Stmt → Bool
  | .assign x _ => validId x
  | .ifThen _ t => validStmt t
  | .ifThenElse _ t e => validStmt t && validStmt e
  | .whileStmt _ b => validStmt b
  | .forStmt v _ _ _ b => validId v && validStmt b
  | .repeatStmt l _ => validStmtList l
  | .ioStmt _ args => !args.isEmpty
  | .blockStmt l => validStmtList l
  | .emptyStmt => true
/-- All statements of the list are valid. -/
def validStmtList : StmtList → Bool
  | .single s => validStmt s
  | .snoc l s => validStmtList l && validStmt s
end

mutual
/-- Statements free of `if`, `while`, `for` and `repeat` constructs. -/
def linearStmt : Stmt → Bool
  | .assign _ _ => true
  | .ioStmt _ _ => true
  | .emptyStmt => true
  | .blockStmt l => linearStmtList l
  | .ifThen _ _ => false
  | .ifThenElse _ _ _ => false
  | .whileStmt _ _ => false
  | .forStmt _ _ _ _ _ => false
  | .repeatStmt _ _ => false
/-- All statements of the list are linear. -/
def linearStmtList : StmtList → Bool
  | .single s => linearStmt s
  | .snoc l s => linearStmtList l && linearStmt s
end

mutual
/-- The operation codes a loop-free statement contributes to the graph, one
per source statement, in source order. -/
def stmtCodes : Stmt → List String
  | .assign x e => [x ++ " = " ++ e ++ ";"]
  | .ioStmt f args => [ioCode f args]
  | .blockStmt l => stmtListCodes l
  | .emptyStmt => ["/* empty */"]
  | .ifThen _ _ => []
  | .ifThenElse _ _ _ => []
  | .whileStmt _ _ => []
  | .forStmt _ _ _ _ _ => []
  | .repeatStmt _ _ => []
/-- Codes of a statement list, in order. -/
def stmtListCodes : StmtList → List String
  | .single s => stmtCodes s
  | .snoc l s => stmtListCodes l ++ stmtCodes s
end

/-- A straight chain of operation nodes with consecutive ids, each linked to
the next, the last one linked to `tail`. -/
def chainTo (c : Nat) (codes : List String) (tail : Nat) : List FlowNode :=
  match codes with
  | [] => []
  | [code] => [⟨c, "OP", [tail], .operationNode code⟩]
  | code :: rest => ⟨c, "OP", [c + 1], .operationNode code⟩ :: chainTo (c + 1) rest tail

/-- Same chain with the last node not yet linked onward, as `buildStmtList`
leaves a fragment before the enclosing production connects it. -/
def chainNodes (c : Nat) (codes : List String) : List FlowNode :=
  match codes with
  | [] => []
  | [code] => [⟨c, "OP", [], .operationNode code⟩]
  | code :: rest => ⟨c, "OP", [c + 1], .operationNode code⟩ :: chainNodes (c + 1) rest

/-- A line with its emitted indentation removed, as characters. -/
def afterIndent (s : String) : List Char := s.toList.dropWhile (fun c => c = ' ')

/-- A line opening an `if` block. -/
def isIfLine (s : String) : Bool := "if (".toList.isPrefixOf (afterIndent s)

/-- A line opening an `else` block. -/
def isElseLine (s : String) : Bool := afterIndent s == "\x7d else \x7b".toList

/-- Shape facts holding of every operation code the builder creates from a
valid program: nonempty, starting with a character that is neither a space
nor a closing brace, not starting like an `if` header, and distinct from
the scaffold return line. -/
def okCode (c : String) : Bool :=
  match c.toList with
  | [] => false
  | h :: _ =>
    !(h == ' ') && !(h == '\x7d') && !("if (".toList.isPrefixOf c.toList)
      && !(c == "return 0;")

/-- Arena invariant established by the builder: every operation code is
well shaped and every condition has both branches set. -/
def goodArena (g : List FlowNode) : Prop :=
  ∀ n ∈ g,
    (∀ code, n.kind = .operationNode code → okCode code = true) ∧
    (∀ cc tb fb, n.kind = .conditionNode cc tb fb → tb.isSome ∧ fb.isSome)

/-- Every line the walk emits: an operation code of the arena, an `if`
header of a condition of the arena, an else opener, or a block closer, all
at one indent level or deeper. -/
def okWalkLine (g : List FlowNode) (l : String) : Prop :=
  ∃ k, 1 ≤ k ∧
    ((∃ n ∈ g, ∃ code, n.kind = .operationNode code ∧ l = indentOf k ++ code) ∨
     (∃ n ∈ g, ∃ cc tb fb, n.kind = .conditionNode cc tb fb ∧
        l = indentOf k ++ ("if (" ++ cc ++ ") \x7b")) ∨
     l = indentOf k ++ "\x7d else \x7b" ∨
     l = indentOf k ++ "\x7d")

/-- How many arena ids are not yet visited, the decreasing measure of the
visited-guarded walk. -/
def unvisitedCount (g : List FlowNode) (visited : List Nat) : Nat :=
  ((g.map FlowNode.id).dedup.filter (fun i => decide (i ∉ visited))).length

/-- How many emitted lines carry exactly the code `c` under their
indentation. -/
def codeLineCount (c : String) (ls : List String) : Nat :=
  ls.countP (fun l => afterIndent l == c.toList)

/-- How many distinct unvisited arena ids name an operation node whose code
is `c`. -/
def opsWithCode (g : List FlowNode) (c : String) (visited : List Nat) : Nat :=
  ((g.map FlowNode.id).dedup.filter (fun i =>
    decide (i ∉ visited) &&
    match findNode g i with
    | some n => n.kind == .operationNode c
    | none => false)).length

/-- What one walk step guarantees: the visited set only grows, the indent
level is restored, and the emitted lines are appended, all of them well
shaped whenever the walk runs at one indent level or deeper. -/
def Concl (g : List FlowNode) (st st' : GenState) : Prop :=
  st.visited ⊆ st'.visited ∧ st'.indent_level = st.indent_level ∧
  ∃ Δ, st'.lines = st.lines ++ Δ ∧
    (1 ≤ st.indent_level → ∀ l ∈ Δ, okWalkLine g l)

/-- Arena well-formedness: every node id is below the counter, so a fresh id
never collides. -/
def WF (s : BuildState) : Prop := ∀ n ∈ s.arena, n.id < s.counter

/-- Arena goodness, except that condition nodes with id `c` may still be
open (their branches not yet assigned). -/
def goodExcept (g : List FlowNode) (c : Nat) : Prop :=
  ∀ n ∈ g,
    (∀ code, n.kind = .operationNode code → okCode code = true) ∧
    (n.id ≠ c → ∀ cc tb fb, n.kind = .conditionNode cc tb fb → tb.isSome ∧ fb.isSome)

/-- Every condition node with id `c` has its true branch set. -/
def condTrueAt (g : List FlowNode) (c : Nat) : Prop :=
  ∀ n ∈ g, n.id = c → ∀ cc tb fb, n.kind = .conditionNode cc tb fb → tb.isSome

/-- Every condition node with id `c` has both branches set. -/
def condClosedAt (g : List FlowNode) (c : Nat) : Prop :=
  ∀ n ∈ g, n.id = c → ∀ cc tb fb, n.kind = .conditionNode cc tb fb → tb.isSome ∧ fb.isSome

/-! ### Helper lemmas -/

theorem toList_append (a b : String) : (a ++ b).toList = a.toList ++ b.toList := by
  cases a
  cases b
  rfl

theorem indentOf_data (k : Nat) : (indentOf k).data = List.replicate (4 * k) ' ' := rfl

theorem dropWhile_replicate_append (m : Nat) (l : List Char) :
    List.dropWhile (fun c => decide (c = ' ')) (List.replicate m ' ' ++ l) =
    List.dropWhile (fun c => decide (c = ' ')) l := by
  induction m with
  | zero => rfl
  | succ m ih => simp [List.replicate_succ, List.dropWhile_cons]

theorem afterIndent_indent (k : Nat) (t : String) :
    afterIndent (indentOf k ++ t) = afterIndent t := by
  simp [afterIndent, toList_append, indentOf_data, dropWhile_replicate_append]

theorem afterIndent_of_head {t : String} {h : Char} {rest : List Char}
    (ht : t.toList = h :: rest) (hh : ¬ h = ' ') : afterIndent t = t.toList := by
  unfold afterIndent
  rw [ht, List.dropWhile_cons]
  simp [hh]

theorem indent_append_head (k : Nat) (hk : 1 ≤ k) (t : String) :
    ∃ rest, (indentOf k ++ t).toList = ' ' :: rest := by
  obtain ⟨m, hm⟩ : ∃ m, 4 * k = m + 1 := ⟨4 * k - 1, by omega⟩
  refine ⟨List.replicate m ' ' ++ t.toList, ?_⟩
  show (indentOf k ++ t).data = ' ' :: (List.replicate m ' ' ++ t.data)
  rw [String.data_append, indentOf_data, hm, List.replicate_succ]
  rfl

theorem findNode_mem {g : List FlowNode} {i : Nat} {n : FlowNode}
    (h : findNode g i = some n) : n ∈ g ∧ n.id = i := by
  refine ⟨List.mem_of_find?_eq_some h, ?_⟩
  have := List.find?_some h
  simpa using this

theorem isIfLine_header (k : Nat) (cc : String) :
    isIfLine (indentOf k ++ ("if (" ++ cc ++ ") \x7b")) = true := by
  have h0 : ("if (" ++ cc ++ ") \x7b").toList =
      'i' :: ('f' :: ' ' :: '(' :: (cc.toList ++ ") \x7b".toList)) := by
    rw [toList_append, toList_append]
    rfl
  have h1 : afterIndent (indentOf k ++ ("if (" ++ cc ++ ") \x7b")) =
      'i' :: ('f' :: ' ' :: '(' :: (cc.toList ++ ") \x7b".toList)) := by
    rw [afterIndent_indent, afterIndent_of_head h0 (by decide), h0]
  unfold isIfLine
  rw [h1, List.isPrefixOf_iff_prefix]
  exact ⟨cc.toList ++ ") \x7b".toList, rfl⟩

theorem isElseLine_header (k : Nat) (cc : String) :
    isElseLine (indentOf k ++ ("if (" ++ cc ++ ") \x7b")) = false := by
  have h0 : ("if (" ++ cc ++ ") \x7b").toList =
      'i' :: ('f' :: ' ' :: '(' :: (cc.toList ++ ") \x7b".toList)) := by
    rw [toList_append, toList_append]
    rfl
  have h1 : afterIndent (indentOf k ++ ("if (" ++ cc ++ ") \x7b")) =
      'i' :: ('f' :: ' ' :: '(' :: (cc.toList ++ ") \x7b".toList)) := by
    rw [afterIndent_indent, afterIndent_of_head h0 (by decide), h0]
  unfold isElseLine
  rw [h1]
  simp only [beq_eq_false_iff_ne, ne_eq]
  intro hcontra
  have hhead : 'i' = '\x7d' := by
    have := congrArg (fun l => l.head?) hcontra
    simp at this
  exact absurd hhead (by decide)

theorem opLine_classify {code : String} (hok : okCode code = true) (k : Nat) :
    isIfLine (indentOf k ++ code) = false ∧ isElseLine (indentOf k ++ code) = false := by
  unfold okCode at hok
  cases hc : code.toList with
  | nil => rw [hc] at hok; simp at hok
  | cons h t =>
    rw [hc] at hok
    simp only [Bool.and_eq_true, Bool.not_eq_true', beq_eq_false_iff_ne, ne_eq,
      List.isPrefixOf_iff_prefix, decide_eq_false_iff_not] at hok
    obtain ⟨⟨⟨hsp, hbr⟩, hpre⟩, hret⟩ := hok
    have hAI : afterIndent (indentOf k ++ code) = code.toList := by
      rw [afterIndent_indent]
      exact afterIndent_of_head hc hsp
    constructor
    · unfold isIfLine
      rw [hAI, hc]
      exact hpre
    · unfold isElseLine
      rw [hAI, hc]
      simp only [beq_eq_false_iff_ne, ne_eq]
      intro hcontra
      have : h = '\x7d' := by
        have := congrArg (fun l => l.head?) hcontra
        simpa using this
      exact hbr this

theorem closeLine_classify (k : Nat) :
    isIfLine (indentOf k ++ "\x7d") = false ∧ isElseLine (indentOf k ++ "\x7d") = false := by
  constructor
  · unfold isIfLine
    rw [afterIndent_indent]
    decide
  · unfold isElseLine
    rw [afterIndent_indent]
    decide

theorem elseLine_classify (k : Nat) :
    isIfLine (indentOf k ++ "\x7d else \x7b") = false ∧
    isElseLine (indentOf k ++ "\x7d else \x7b") = true := by
  constructor
  · unfold isIfLine
    rw [afterIndent_indent]
    decide
  · unfold isElseLine
    rw [afterIndent_indent]
    decide

theorem concl_refl (g : List FlowNode) (st : GenState) : Concl g st st :=
  ⟨fun _ hx => hx, rfl, [], by simp, fun _ => by simp⟩

theorem concl_trans {g : List FlowNode} {st1 st2 st3 : GenState}
    (h1 : Concl g st1 st2) (h2 : Concl g st2 st3) : Concl g st1 st3 := by
  obtain ⟨v1, i1, Δ1, l1, p1⟩ := h1
  obtain ⟨v2, i2, Δ2, l2, p2⟩ := h2
  refine ⟨fun x hx => v2 (v1 hx), i2.trans i1, Δ1 ++ Δ2,
    by rw [l2, l1, List.append_assoc], ?_⟩
  intro hi l hl
  rcases List.mem_append.1 hl with h | h
  · exact p1 hi l h
  · exact p2 (i1 ▸ hi) l h

theorem concl_visit (g : List FlowNode) (st : GenState) (nid : Nat) :
    Concl g st { st with visited := nid :: st.visited } :=
  ⟨fun x hx => List.mem_cons_of_mem _ hx, rfl, [], by simp, fun _ => by simp⟩

theorem concl_emit_op {g : List FlowNode} {node : FlowNode} (hmem : node ∈ g)
    {code : String} (hkind : node.kind = .operationNode code) (st : GenState) :
    Concl g st (emit st code) := by
  refine ⟨fun _ hx => hx, rfl, [indentOf st.indent_level ++ code], by simp [emit], ?_⟩
  intro hi l hl
  have hl' : l = indentOf st.indent_level ++ code := by simpa using hl
  subst hl'
  exact ⟨st.indent_level, hi, Or.inl ⟨node, hmem, code, hkind, rfl⟩⟩

theorem concl_emit_if {g : List FlowNode} {node : FlowNode} (hmem : node ∈ g)
    {cc : String} {tb fb : Option Nat} (hkind : node.kind = .conditionNode cc tb fb)
    (st : GenState) : Concl g st (emit st ("if (" ++ cc ++ ") \x7b")) := by
  refine ⟨fun _ hx => hx, rfl, [indentOf st.indent_level ++ ("if (" ++ cc ++ ") \x7b")],
    by simp [emit], ?_⟩
  intro hi l hl
  have hl' : l = indentOf st.indent_level ++ ("if (" ++ cc ++ ") \x7b") := by simpa using hl
  subst hl'
  exact ⟨st.indent_level, hi, Or.inr (Or.inl ⟨node, hmem, cc, tb, fb, hkind, rfl⟩)⟩

theorem concl_emit_else (g : List FlowNode) (st : GenState) :
    Concl g st (emit st "\x7d else \x7b") := by
  refine ⟨fun _ hx => hx, rfl, [indentOf st.indent_level ++ "\x7d else \x7b"],
    by simp [emit], ?_⟩
  intro hi l hl
  have hl' : l = indentOf st.indent_level ++ "\x7d else \x7b" := by simpa using hl
  subst hl'
  exact ⟨st.indent_level, hi, Or.inr (Or.inr (Or.inl rfl))⟩

theorem concl_emit_close (g : List FlowNode) (st : GenState) :
    Concl g st (emit st "\x7d") := by
  refine ⟨fun _ hx => hx, rfl, [indentOf st.indent_level ++ "\x7d"], by simp [emit], ?_⟩
  intro hi l hl
  have hl' : l = indentOf st.indent_level ++ "\x7d" := by simpa using hl
  subst hl'
  exact ⟨st.indent_level, hi, Or.inr (Or.inr (Or.inr rfl))⟩

theorem concl_indent_bracket {g : List FlowNode} {st st1 : GenState}
    (h : Concl g { st with indent_level := st.indent_level + 1 } st1) :
    Concl g st { st1 with indent_level := st1.indent_level - 1 } := by
  obtain ⟨v, i, Δ, l, p⟩ := h
  refine ⟨v, ?_, Δ, l, ?_⟩
  · simp only [] at i ⊢
    omega
  · intro hi
    exact p (by simp)

theorem obind_eq_some {x : Option GenState} {f : GenState → Option GenState} {y : GenState}
    (h : obind x f = some y) : ∃ a, x = some a ∧ f a = some y := by
  cases x with
  | none => cases h
  | some a => exact ⟨a, rfl, h⟩

theorem walkSeq_concl {g : List FlowNode} {f : GenState → Nat → Option GenState}
    (hf : ∀ st n st', f st n = some st' → Concl g st st') :
    ∀ ns st st', walkSeq f st ns = some st' → Concl g st st' := by
  intro ns
  induction ns with
  | nil =>
    intro st st' h
    rw [walkSeq] at h
    cases h
    exact concl_refl _ _
  | cons n ns ih =>
    intro st st' h
    rw [walkSeq] at h
    obtain ⟨st1, hfst, h2⟩ := obind_eq_some h
    exact concl_trans (hf _ _ _ hfst) (ih _ _ h2)

/-- Frame properties of one `_walk` call: visited only grows, the indent
level is restored, lines are appended and well shaped. -/
theorem walk_concl (g : List FlowNode) :
    ∀ fuel st nid st', walk g fuel st nid = some st' → Concl g st st' := by
  intro fuel
  induction fuel with
  | zero =>
    intro st nid st' h
    rw [walk] at h
    cases h
  | succ fuel ih =>
    intro st nid st' h
    rw [walk] at h
    by_cases hv : nid ∈ st.visited
    · rw [if_pos hv] at h
      cases h
      exact concl_refl g st
    · rw [if_neg hv] at h
      split at h
      next hfind =>
        cases h
        exact concl_visit g st nid
      next node hfind =>
        have hmem := (findNode_mem hfind).1
        split at h
        next code hkind =>
          exact concl_trans (concl_visit g st nid)
            (concl_trans (concl_emit_op hmem hkind _) (walkSeq_concl ih _ _ _ h))
        next cond_code tb fb hkind =>
          obtain ⟨st1, hw, h⟩ := obind_eq_some h
          have cT : Concl g (emit { st with visited := nid :: st.visited }
              ("if (" ++ cond_code ++ ") \x7b"))
              { st1 with indent_level := st1.indent_level - 1 } := by
            cases tb with
            | some t => exact concl_indent_bracket (ih _ _ _ hw)
            | none =>
              cases hw
              exact concl_indent_bracket (concl_refl g _)
          simp only [] at h
          cases fb with
          | some f =>
            obtain ⟨st5, hwf, h⟩ := obind_eq_some h
            exact concl_trans (concl_visit g st nid)
              (concl_trans (concl_emit_if hmem hkind _)
                (concl_trans cT
                  (concl_trans (concl_emit_else g _)
                    (concl_trans (concl_indent_bracket (ih _ _ _ hwf))
                      (concl_trans (concl_emit_close g _)
                        (walkSeq_concl ih _ _ _ h))))))
          | none =>
            exact concl_trans (concl_visit g st nid)
              (concl_trans (concl_emit_if hmem hkind _)
                (concl_trans cT
                  (concl_trans (concl_emit_close g _)
                    (walkSeq_concl ih _ _ _ h))))
        next h1 h2 =>
          exact concl_trans (concl_visit g st nid) (walkSeq_concl ih _ _ _ h)

/-- Projection of a generator state literal. -/
theorem genState_lines (a : List String) (b : Nat) (c : List Nat) :
    (GenState.mk a b c).lines = a := rfl

theorem countP_emit (p : String → Bool) (st : GenState) (t : String) :
    (emit st t).lines.countP p =
      st.lines.countP p + (if p (indentOf st.indent_level ++ t) then 1 else 0) := by
  simp [emit, List.countP_append, List.countP_cons]

/-- Every completed walk emits as many else openers as if headers, provided
every condition of the arena has its false branch set and operation codes
are well shaped. -/
theorem walk_balance (g : List FlowNode) (hg : goodArena g) : ∀ fuel,
    (∀ st nid st', walk g fuel st nid = some st' →
      st'.lines.countP isIfLine + st.lines.countP isElseLine =
        st'.lines.countP isElseLine + st.lines.countP isIfLine) ∧
    (∀ st ns st', walkSeq (walk g fuel) st ns = some st' →
      st'.lines.countP isIfLine + st.lines.countP isElseLine =
        st'.lines.countP isElseLine + st.lines.countP isIfLine) := by
  intro fuel
  induction fuel with
  | zero =>
    constructor
    · intro st nid st' h
      rw [walk] at h
      cases h
    · intro st ns st' h
      cases ns with
      | nil =>
        rw [walkSeq] at h
        cases h
        omega
      | cons n ns =>
        rw [walkSeq] at h
        obtain ⟨st1, hw, h2⟩ := obind_eq_some h
        rw [walk] at hw
        cases hw
  | succ fuel ih =>
    have walkStep : ∀ st nid st', walk g (fuel + 1) st nid = some st' →
        st'.lines.countP isIfLine + st.lines.countP isElseLine =
          st'.lines.countP isElseLine + st.lines.countP isIfLine := by
      intro st nid st' h
      rw [walk] at h
      by_cases hv : nid ∈ st.visited
      · rw [if_pos hv] at h
        cases h
        omega
      · rw [if_neg hv] at h
        split at h
        next hfind =>
          cases h
          simp only [genState_lines]
          omega
        next node hfind =>
          have hmem := (findNode_mem hfind).1
          split at h
          next code hkind =>
            have hok : okCode code = true := (hg node hmem).1 code hkind
            have hif : ∀ k, isIfLine (indentOf k ++ code) = false :=
              fun k => (opLine_classify hok k).1
            have hel : ∀ k, isElseLine (indentOf k ++ code) = false :=
              fun k => (opLine_classify hok k).2
            have hs := ih.2 _ _ _ h
            simp [countP_emit, hif, hel, genState_lines] at hs
            omega
          next cond_code tb fb hkind =>
            obtain ⟨st1, hw, h⟩ := obind_eq_some h
            have hifH : ∀ k, isIfLine (indentOf k ++ ("if (" ++ cond_code ++ ") \x7b")) = true :=
              fun k => isIfLine_header k cond_code
            have helH : ∀ k, isElseLine (indentOf k ++ ("if (" ++ cond_code ++ ") \x7b")) = false :=
              fun k => isElseLine_header k cond_code
            have e1 : st1.lines.countP isIfLine =
                st.lines.countP isIfLine + 1 + st1.lines.countP isElseLine
                  - st.lines.countP isElseLine ∧
                st.lines.countP isElseLine ≤ st1.lines.countP isElseLine + 1 + st.lines.countP isIfLine := by
              cases tb with
              | some t =>
                have := ih.1 _ _ _ hw
                simp [countP_emit, hifH, helH, genState_lines] at this
                omega
              | none =>
                cases hw
                simp [countP_emit, hifH, helH, genState_lines]
                omega
            simp only [] at h
            cases fb with
            | some f =>
              obtain ⟨st5, hwf, h⟩ := obind_eq_some h
              have hifE : ∀ k, isIfLine (indentOf k ++ "\x7d else \x7b") = false :=
                fun k => (elseLine_classify k).1
              have helE : ∀ k, isElseLine (indentOf k ++ "\x7d else \x7b") = true :=
                fun k => (elseLine_classify k).2
              have hifC : ∀ k, isIfLine (indentOf k ++ "\x7d") = false :=
                fun k => (closeLine_classify k).1
              have helC : ∀ k, isElseLine (indentOf k ++ "\x7d") = false :=
                fun k => (closeLine_classify k).2
              have e2 := ih.1 _ _ _ hwf
              have e3 := ih.2 _ _ _ h
              simp [countP_emit, hifE, helE, genState_lines] at e2
              simp [countP_emit, hifC, helC, genState_lines] at e3
              omega
            | none =>
              exfalso
              have h2 := ((hg node hmem).2 cond_code tb none hkind).2
              simp at h2
          next h1 h2 =>
            have hs := ih.2 _ _ _ h
            simp only [genState_lines] at hs
            omega
    refine ⟨walkStep, ?_⟩
    intro st ns st' h
    induction ns generalizing st with
    | nil =>
      rw [walkSeq] at h
      cases h
      omega
    | cons n ns ihn =>
      rw [walkSeq] at h
      obtain ⟨st1, hw, h2⟩ := obind_eq_some h
      have a1 := walkStep _ _ _ hw
      have a2 := ihn _ h2
      omega

theorem unvisitedCount_mono {g : List FlowNode} {v1 v2 : List Nat} (h : v1 ⊆ v2) :
    unvisitedCount g v2 ≤ unvisitedCount g v1 := by
  unfold unvisitedCount
  rw [← List.countP_eq_length_filter, ← List.countP_eq_length_filter]
  apply List.countP_mono_left
  intro a _ ha
  simp only [decide_eq_true_eq] at ha ⊢
  intro hmem
  exact ha (h hmem)

theorem filter_notMem_cons_lt {l v : List Nat} {nid : Nat} (hmem : nid ∈ l)
    (hnv : nid ∉ v) :
    (l.filter (fun i => decide (i ∉ nid :: v))).length <
      (l.filter (fun i => decide (i ∉ v))).length := by
  induction l with
  | nil => cases hmem
  | cons a as ih =>
    by_cases ha : a = nid
    · subst ha
      have h1 : (decide (a ∉ a :: v)) = false := by simp
      have h2 : (decide (a ∉ v)) = true := by simpa using hnv
      rw [List.filter_cons, List.filter_cons, h1, h2]
      simp only [Bool.false_eq_true, if_false, if_true]
      have hmono : (as.filter (fun i => decide (i ∉ a :: v))).length ≤
          (as.filter (fun i => decide (i ∉ v))).length := by
        rw [← List.countP_eq_length_filter, ← List.countP_eq_length_filter]
        apply List.countP_mono_left
        intro b _ hb
        simp only [decide_eq_true_eq, List.mem_cons, not_or] at hb ⊢
        exact hb.2
      simp only [List.length_cons]
      omega
    · have hmem' : nid ∈ as := by
        cases List.mem_cons.1 hmem with
        | inl hh => exact absurd hh.symm ha
        | inr hh => exact hh
      rw [List.filter_cons, List.filter_cons]
      have hiff : (decide (a ∉ nid :: v)) = (decide (a ∉ v)) := by
        by_cases hav : a ∈ v
        · simp [hav]
        · simp [hav, ha]
      rw [hiff]
      cases hd : (decide (a ∉ v)) with
      | false => simpa using ih hmem'
      | true =>
        simp only [if_true]
        have := ih hmem'
        simp only [List.length_cons]
        omega

theorem unvisitedCount_insert_lt {g : List FlowNode} {v : List Nat} {nid : Nat}
    (hmem : nid ∈ g.map FlowNode.id) (hnv : nid ∉ v) :
    unvisitedCount g (nid :: v) < unvisitedCount g v := by
  unfold unvisitedCount
  exact filter_notMem_cons_lt (List.mem_dedup.2 hmem) hnv

theorem obind_isSome {x : Option GenState} {f : GenState → Option GenState}
    (hx : x.isSome) (hf : ∀ a, x = some a → (f a).isSome) : (obind x f).isSome := by
  cases x with
  | none => cases hx
  | some a => exact hf a rfl

/-- Fuel sufficiency: with more fuel than unvisited arena ids, the walk never
runs out. -/
theorem walk_isSome (g : List FlowNode) : ∀ fuel,
    (∀ st nid, unvisitedCount g st.visited < fuel → (walk g fuel st nid).isSome) ∧
    (∀ st ns, unvisitedCount g st.visited < fuel →
      (walkSeq (walk g fuel) st ns).isSome) := by
  intro fuel
  induction fuel with
  | zero =>
    constructor
    · intro st nid h
      omega
    · intro st ns h
      omega
  | succ fuel ih =>
    have walkStep : ∀ st nid, unvisitedCount g st.visited < fuel + 1 →
        (walk g (fuel + 1) st nid).isSome := by
      intro st nid hU
      rw [walk]
      by_cases hv : nid ∈ st.visited
      · rw [if_pos hv]
        rfl
      · rw [if_neg hv]
        split
        next => rfl
        next node hfind =>
          have hmem := findNode_mem hfind
          have hid : nid ∈ g.map FlowNode.id := by
            rcases hmem with ⟨hin, hidn⟩
            exact List.mem_map.2 ⟨node, hin, hidn⟩
          have hUv : unvisitedCount g (nid :: st.visited) < fuel :=
            Nat.lt_of_lt_of_le (unvisitedCount_insert_lt hid hv) (by omega)
          split
          next code =>
            exact ih.2 _ node.next (by simpa [emit] using hUv)
          next =>
            apply obind_isSome
            · split
              next t heq => exact ih.1 _ t (by simpa [emit] using hUv)
              next => rfl
            · intro st1 hst1
              have hU1 : unvisitedCount g st1.visited < fuel := by
                split at hst1
                next t =>
                  have := (walk_concl g fuel _ _ _ hst1).1
                  refine Nat.lt_of_le_of_lt (unvisitedCount_mono ?_) hUv
                  simpa [emit] using this
                next =>
                  cases hst1
                  simpa [emit] using hUv
              simp only []
              split
              next f heqf =>
                apply obind_isSome
                · exact ih.1 _ f (by simpa [emit] using hU1)
                · intro st5 hst5
                  have hU5 : unvisitedCount g st5.visited < fuel := by
                    have hsub := (walk_concl g fuel _ _ _ hst5).1
                    refine Nat.lt_of_le_of_lt (unvisitedCount_mono ?_) hU1
                    simpa [emit] using hsub
                  exact ih.2 _ node.next (by simpa [emit] using hU5)
              next =>
                exact ih.2 _ node.next (by simpa [emit] using hU1)
          next h1 h2 =>
            exact ih.2 _ node.next (by simpa using hUv)
    refine ⟨walkStep, ?_⟩
    intro st ns
    induction ns generalizing st with
    | nil =>
      intro _
      rw [walkSeq]
      rfl
    | cons n ns ihn =>
      intro hU
      rw [walkSeq]
      apply obind_isSome
      · exact walkStep st n hU
      · intro st1 hst1
        have hsub := (walk_concl g (fuel + 1) _ _ _ hst1).1
        exact ihn _ (Nat.lt_of_le_of_lt (unvisitedCount_mono hsub) hU)

theorem indentOf_zero_append (s : String) : indentOf 0 ++ s = s := by
  cases s
  rfl

theorem indentOf_zero : indentOf 0 = "" := rfl

theorem empty_append_str (s : String) : "" ++ s = s := by
  cases s
  rfl

theorem indentOf_one_return : indentOf 1 ++ "return 0;" = "    return 0;" := by decide

theorem unvisitedCount_le (g : List FlowNode) (v : List Nat) :
    unvisitedCount g v ≤ g.length := by
  unfold unvisitedCount
  have h1 := List.length_filter_le (fun i => decide (i ∉ v)) (g.map FlowNode.id).dedup
  have h2 := (List.dedup_sublist (g.map FlowNode.id)).length_le
  have h3 : (g.map FlowNode.id).length = g.length := List.length_map _ _
  omega

/-- The generated lines always exist (the built-in fuel suffices) and consist
of the scaffold around well-shaped walk lines, if/else balanced on good
arenas. -/
theorem generateLines_spec (g : List FlowNode) (i : Nat) :
    ∃ Δ st1,
      walk g (g.length + 1) ⟨["#include <stdio.h>", "", "int main() \x7b"], 1, []⟩ i =
        some st1 ∧
      st1.lines = ["#include <stdio.h>", "", "int main() \x7b"] ++ Δ ∧
      generateLines g i =
        some (["#include <stdio.h>", "", "int main() \x7b"] ++ Δ ++ ["    return 0;", "\x7d"]) ∧
      (∀ l ∈ Δ, okWalkLine g l) ∧
      (goodArena g → Δ.countP isIfLine = Δ.countP isElseLine) := by
  have hU : unvisitedCount g ([] : List Nat) < g.length + 1 :=
    Nat.lt_succ_of_le (unvisitedCount_le g [])
  have hsome := (walk_isSome g (g.length + 1)).1
    ⟨["#include <stdio.h>", "", "int main() \x7b"], 1, []⟩ i hU
  obtain ⟨st1, heq⟩ := Option.isSome_iff_exists.mp hsome
  obtain ⟨hmono, hind, Δ, hlines, hok⟩ := walk_concl g _ _ _ _ heq
  have hind1 : st1.indent_level = 1 := hind
  refine ⟨Δ, st1, heq, by simpa using hlines, ?_, ?_, ?_⟩
  · unfold generateLines
    simp only [emit, indentOf_zero_append, indentOf_zero, empty_append_str, List.nil_append,
      genState_lines, Nat.zero_add, List.singleton_append, List.cons_append]
    rw [heq]
    simp only [emit, genState_lines, hind1, hlines]
    rw [indentOf_one_return]
    simp [indentOf_zero_append]
  · intro l hl
    exact hok (by simp) l hl
  · intro hg
    have hb := (walk_balance g hg (g.length + 1)).1 _ _ _ heq
    rw [hlines] at hb
    have c1 : List.countP isIfLine ["#include <stdio.h>", "", "int main() \x7b"] = 0 := by
      decide
    have c2 : List.countP isElseLine ["#include <stdio.h>", "", "int main() \x7b"] = 0 := by
      decide
    simp only [List.countP_append, c1, c2, genState_lines] at hb
    omega

/-! ### Builder arena shape lemmas -/

theorem mem_connect_arena {s : BuildState} {a b : Nat} {n : FlowNode}
    (hn : n ∈ (connect a b s).arena) :
    ∃ m ∈ s.arena, n.id = m.id ∧ n.kind = m.kind := by
  simp only [connect, List.mem_map] at hn
  obtain ⟨m, hm, hfm⟩ := hn
  refine ⟨m, hm, ?_⟩
  subst hfm
  by_cases h : m.id = a
  · rw [if_pos h]
    exact ⟨rfl, rfl⟩
  · rw [if_neg h]
    exact ⟨rfl, rfl⟩

theorem mem_setTrue_arena {s : BuildState} {x t : Nat} {n : FlowNode}
    (hn : n ∈ (setTrue x t s).arena) :
    ∃ m ∈ s.arena, n.id = m.id ∧
      ((n.kind = m.kind ∧ (m.id = x → ∀ cc tb fb, m.kind ≠ .conditionNode cc tb fb)) ∨
       (m.id = x ∧ ∃ cc tb fb, m.kind = .conditionNode cc tb fb ∧
         n.kind = .conditionNode cc (some t) fb)) := by
  simp only [setTrue, List.mem_map] at hn
  obtain ⟨m, hm, hfm⟩ := hn
  refine ⟨m, hm, ?_⟩
  subst hfm
  by_cases h : m.id = x
  · rw [if_pos h]
    cases hk : m.kind with
    | startNode =>
      exact ⟨rfl, Or.inl ⟨rfl, fun _ cc tb fb hc => NodeKind.noConfusion hc⟩⟩
    | endNode =>
      exact ⟨rfl, Or.inl ⟨rfl, fun _ cc tb fb hc => NodeKind.noConfusion hc⟩⟩
    | operationNode code =>
      exact ⟨rfl, Or.inl ⟨rfl, fun _ cc tb fb hc => NodeKind.noConfusion hc⟩⟩
    | conditionNode cc tb fb =>
      exact ⟨rfl, Or.inr ⟨h, cc, tb, fb, rfl, rfl⟩⟩
  · rw [if_neg h]
    exact ⟨rfl, Or.inl ⟨rfl, fun hx => absurd hx h⟩⟩

theorem mem_setFalse_arena {s : BuildState} {x f : Nat} {n : FlowNode}
    (hn : n ∈ (setFalse x f s).arena) :
    ∃ m ∈ s.arena, n.id = m.id ∧
      ((n.kind = m.kind ∧ (m.id = x → ∀ cc tb fb, m.kind ≠ .conditionNode cc tb fb)) ∨
       (m.id = x ∧ ∃ cc tb fb, m.kind = .conditionNode cc tb fb ∧
         n.kind = .conditionNode cc tb (some f))) := by
  simp only [setFalse, List.mem_map] at hn
  obtain ⟨m, hm, hfm⟩ := hn
  refine ⟨m, hm, ?_⟩
  subst hfm
  by_cases h : m.id = x
  · rw [if_pos h]
    cases hk : m.kind with
    | startNode =>
      exact ⟨rfl, Or.inl ⟨rfl, fun _ cc tb fb hc => NodeKind.noConfusion hc⟩⟩
    | endNode =>
      exact ⟨rfl, Or.inl ⟨rfl, fun _ cc tb fb hc => NodeKind.noConfusion hc⟩⟩
    | operationNode code =>
      exact ⟨rfl, Or.inl ⟨rfl, fun _ cc tb fb hc => NodeKind.noConfusion hc⟩⟩
    | conditionNode cc tb fb =>
      exact ⟨rfl, Or.inr ⟨h, cc, tb, fb, rfl, rfl⟩⟩
  · rw [if_neg h]
    exact ⟨rfl, Or.inl ⟨rfl, fun hx => absurd hx h⟩⟩

theorem connect_ids (a b : Nat) (s : BuildState) :
    (connect a b s).arena.map FlowNode.id = s.arena.map FlowNode.id := by
  simp only [connect, List.map_map]
  refine List.map_congr_left ?_
  intro n _
  simp only [Function.comp_apply]
  by_cases h : n.id = a
  · rw [if_pos h]
  · rw [if_neg h]

theorem setTrue_ids (x t : Nat) (s : BuildState) :
    (setTrue x t s).arena.map FlowNode.id = s.arena.map FlowNode.id := by
  simp only [setTrue, List.map_map]
  refine List.map_congr_left ?_
  intro n _
  simp only [Function.comp_apply]
  by_cases h : n.id = x
  · rw [if_pos h]
    cases hk : n.kind <;> rfl
  · rw [if_neg h]

theorem setFalse_ids (x f : Nat) (s : BuildState) :
    (setFalse x f s).arena.map FlowNode.id = s.arena.map FlowNode.id := by
  simp only [setFalse, List.map_map]
  refine List.map_congr_left ?_
  intro n _
  simp only [Function.comp_apply]
  by_cases h : n.id = x
  · rw [if_pos h]
    cases hk : n.kind <;> rfl
  · rw [if_neg h]

theorem newNode_arena (l : String) (k : NodeKind) (s : BuildState) :
    (newNode l k s).2.arena = s.arena ++ [⟨s.counter, l, [], k⟩] := rfl

theorem newNode_counter (l : String) (k : NodeKind) (s : BuildState) :
    (newNode l k s).2.counter = s.counter + 1 := rfl

/-! ### Goodness transport through the builder primitives -/

theorem goodExcept_of_good {g : List FlowNode} (h : goodArena g) (c : Nat) :
    goodExcept g c :=
  fun n hn => ⟨(h n hn).1, fun _ => (h n hn).2⟩

theorem goodArena_of_closed {g : List FlowNode} {c : Nat}
    (h : goodExcept g c) (hc : condClosedAt g c) : goodArena g := by
  intro n hn
  refine ⟨(h n hn).1, ?_⟩
  by_cases hid : n.id = c
  · exact fun cc tb fb hk => hc n hn hid cc tb fb hk
  · exact (h n hn).2 hid

theorem goodExcept_connect {s : BuildState} {c : Nat} (h : goodExcept s.arena c)
    (a b : Nat) : goodExcept (connect a b s).arena c := by
  intro n hn
  obtain ⟨m, hm, hid, hk⟩ := mem_connect_arena hn
  rw [hid, hk]
  exact h m hm

theorem goodExcept_setTrue {s : BuildState} {c : Nat} (h : goodExcept s.arena c)
    (x t : Nat) : goodExcept (setTrue x t s).arena c := by
  intro n hn
  obtain ⟨m, hm, hid, hcase⟩ := mem_setTrue_arena hn
  cases hcase with
  | inl hcase =>
    rw [hid, hcase.1]
    exact h m hm
  | inr hcase =>
    obtain ⟨hmx, cc, tb, fb, hmk, hnk⟩ := hcase
    constructor
    · intro code hcode
      rw [hnk] at hcode
      exact NodeKind.noConfusion hcode
    · intro hidc cc2 tb2 fb2 hk2
      rw [hnk] at hk2
      injection hk2 with e1 e2 e3
      subst e1
      subst e2
      subst e3
      have hok := (h m hm).2 (by rw [← hid]; exact hidc) cc tb fb hmk
      exact ⟨rfl, hok.2⟩

theorem goodExcept_setFalse {s : BuildState} {c : Nat} (h : goodExcept s.arena c)
    (x f : Nat) : goodExcept (setFalse x f s).arena c := by
  intro n hn
  obtain ⟨m, hm, hid, hcase⟩ := mem_setFalse_arena hn
  cases hcase with
  | inl hcase =>
    rw [hid, hcase.1]
    exact h m hm
  | inr hcase =>
    obtain ⟨hmx, cc, tb, fb, hmk, hnk⟩ := hcase
    constructor
    · intro code hcode
      rw [hnk] at hcode
      exact NodeKind.noConfusion hcode
    · intro hidc cc2 tb2 fb2 hk2
      rw [hnk] at hk2
      injection hk2 with e1 e2 e3
      subst e1
      subst e2
      subst e3
      have hok := (h m hm).2 (by rw [← hid]; exact hidc) cc tb fb hmk
      exact ⟨hok.1, rfl⟩

theorem goodExcept_append {g : List FlowNode} {c : Nat} (h : goodExcept g c)
    {n : FlowNode}
    (hn : (∀ code, n.kind = .operationNode code → okCode code = true) ∧
      (n.id ≠ c → ∀ cc tb fb, n.kind = .conditionNode cc tb fb → tb.isSome ∧ fb.isSome)) :
    goodExcept (g ++ [n]) c := by
  intro m hm
  rcases List.mem_append.1 hm with hm | hm
  · exact h m hm
  · rw [List.mem_singleton] at hm
    subst hm
    exact hn

theorem goodArena_append {g : List FlowNode} (h : goodArena g) {n : FlowNode}
    (hn : (∀ code, n.kind = .operationNode code → okCode code = true) ∧
      (∀ cc tb fb, n.kind = .conditionNode cc tb fb → tb.isSome ∧ fb.isSome)) :
    goodArena (g ++ [n]) := by
  intro m hm
  rcases List.mem_append.1 hm with hm | hm
  · exact h m hm
  · rw [List.mem_singleton] at hm
    subst hm
    exact hn

theorem goodArena_connect {s : BuildState} (h : goodArena s.arena) (a b : Nat) :
    goodArena (connect a b s).arena := by
  intro n hn
  obtain ⟨m, hm, hid, hk⟩ := mem_connect_arena hn
  rw [hk]
  exact h m hm

theorem goodArena_nil : goodArena [] := fun n hn => absurd hn (List.not_mem_nil n)

/-! ### Tracking a freshly created condition until both branches are set -/

theorem condTrueAt_setTrue (s : BuildState) (c t : Nat) :
    condTrueAt (setTrue c t s).arena c := by
  intro n hn hid cc tb fb hk
  obtain ⟨m, hm, hid2, hcase⟩ := mem_setTrue_arena hn
  cases hcase with
  | inl hcase =>
    exact absurd (by rw [← hcase.1]; exact hk)
      (hcase.2 (by rw [← hid2]; exact hid) cc tb fb)
  | inr hcase =>
    obtain ⟨hmx, cc2, tb2, fb2, hmk, hnk⟩ := hcase
    rw [hnk] at hk
    injection hk with e1 e2 e3
    rw [← e2]
    rfl

theorem condTrueAt_connect {s : BuildState} {c : Nat} (h : condTrueAt s.arena c)
    (a b : Nat) : condTrueAt (connect a b s).arena c := by
  intro n hn hid cc tb fb hk
  obtain ⟨m, hm, hid2, hk2⟩ := mem_connect_arena hn
  exact h m hm (by rw [← hid2]; exact hid) cc tb fb (by rw [← hk2]; exact hk)

theorem condTrueAt_setFalse {s : BuildState} {c : Nat} (h : condTrueAt s.arena c)
    (x f : Nat) : condTrueAt (setFalse x f s).arena c := by
  intro n hn hid cc tb fb hk
  obtain ⟨m, hm, hid2, hcase⟩ := mem_setFalse_arena hn
  cases hcase with
  | inl hcase =>
    exact h m hm (by rw [← hid2]; exact hid) cc tb fb (by rw [← hcase.1]; exact hk)
  | inr hcase =>
    obtain ⟨hmx, cc2, tb2, fb2, hmk, hnk⟩ := hcase
    rw [hnk] at hk
    injection hk with e1 e2 e3
    rw [← e2]
    exact h m hm (by rw [← hid2]; exact hid) cc2 tb2 fb2 hmk

theorem condTrueAt_append {g : List FlowNode} {c : Nat} (h : condTrueAt g c)
    {n : FlowNode}
    (hn : n.id = c → ∀ cc tb fb, n.kind = .conditionNode cc tb fb → tb.isSome) :
    condTrueAt (g ++ [n]) c := by
  intro m hm hid cc tb fb hk
  rcases List.mem_append.1 hm with hm | hm
  · exact h m hm hid cc tb fb hk
  · rw [List.mem_singleton] at hm
    subst hm
    exact hn hid cc tb fb hk

theorem condClosedAt_setFalse {s : BuildState} {c : Nat} (h : condTrueAt s.arena c)
    (f : Nat) : condClosedAt (setFalse c f s).arena c := by
  intro n hn hid cc tb fb hk
  obtain ⟨m, hm, hid2, hcase⟩ := mem_setFalse_arena hn
  cases hcase with
  | inl hcase =>
    exact absurd (by rw [← hcase.1]; exact hk)
      (hcase.2 (by rw [← hid2]; exact hid) cc tb fb)
  | inr hcase =>
    obtain ⟨hmx, cc2, tb2, fb2, hmk, hnk⟩ := hcase
    rw [hnk] at hk
    injection hk with e1 e2 e3
    constructor
    · rw [← e2]
      exact h m hm hmx cc2 tb2 fb2 hmk
    · rw [← e3]
      rfl

theorem condClosedAt_connect {s : BuildState} {c : Nat} (h : condClosedAt s.arena c)
    (a b : Nat) : condClosedAt (connect a b s).arena c := by
  intro n hn hid cc tb fb hk
  obtain ⟨m, hm, hid2, hk2⟩ := mem_connect_arena hn
  exact h m hm (by rw [← hid2]; exact hid) cc tb fb (by rw [← hk2]; exact hk)

theorem condClosedAt_append {g : List FlowNode} {c : Nat} (h : condClosedAt g c)
    {n : FlowNode}
    (hn : n.id = c → ∀ cc tb fb, n.kind = .conditionNode cc tb fb → tb.isSome ∧ fb.isSome) :
    condClosedAt (g ++ [n]) c := by
  intro m hm hid cc tb fb hk
  rcases List.mem_append.1 hm with hm | hm
  · exact h m hm hid cc tb fb hk
  · rw [List.mem_singleton] at hm
    subst hm
    exact hn hid cc tb fb hk

/-! ### Shape facts about the operation codes the builder creates -/

theorem range'_snoc (c n : Nat) : List.range' c (n + 1) = List.range' c n ++ [c + n] := by
  induction n generalizing c with
  | zero => simp [List.range']
  | succ n ih =>
    rw [List.range'_succ, ih (c + 1), List.range'_succ]
    simp [Nat.add_assoc, Nat.add_comm 1 n]

theorem validId_shape {x : String} (h : validId x = true) :
    ∃ c cs, x.toList = c :: cs ∧ isIdStart c = true ∧ cs.all isIdChar = true := by
  unfold validId at h
  cases hx : x.toList with
  | nil => rw [hx] at h; cases h
  | cons c cs =>
    rw [hx] at h
    simp only [Bool.and_eq_true] at h
    exact ⟨c, cs, rfl, h.1.1, h.1.2⟩

theorem isIdStart_ne_space {c : Char} (h : isIdStart c = true) : (c == ' ') = false := by
  cases hc : c == ' ' with
  | false => rfl
  | true =>
    rw [eq_of_beq hc] at h
    exact absurd h (by decide)

theorem isIdStart_ne_brace {c : Char} (h : isIdStart c = true) : (c == '\x7d') = false := by
  cases hc : c == '\x7d' with
  | false => rfl
  | true =>
    rw [eq_of_beq hc] at h
    exact absurd h (by decide)

theorem space_beq_of_idChar {c : Char} (h : isIdChar c = true) : (' ' == c) = false := by
  cases hc : ' ' == c with
  | false => rfl
  | true =>
    rw [← eq_of_beq hc] at h
    exact absurd h (by decide)

theorem toList_cons_append {a : String} {h : Char} {ta : List Char}
    (ha : a.toList = h :: ta) (b : String) :
    (a ++ b).toList = h :: (ta ++ b.toList) := by
  rw [toList_append, ha]
  rfl

theorem okCode_of_head {c : String} {ch : Char} {rest : List Char}
    (hc : c.toList = ch :: rest) (hsp : (ch == ' ') = false)
    (hbr : (ch == '\x7d') = false) (hi : ('i' == ch) = false)
    (hr : (ch == 'r') = false) : okCode c = true := by
  have hne : (c == "return 0;") = false := by
    cases hb : c == "return 0;" with
    | false => rfl
    | true =>
      rw [eq_of_beq hb] at hc
      have hh : 'r' = ch := by
        have h2 := congrArg List.head? hc
        simp at h2
        exact h2
      rw [← hh] at hr
      exact absurd hr (by decide)
  unfold okCode
  rw [hc]
  show (!(ch == ' ') && !(ch == '\x7d')
      && !(List.isPrefixOf "if (".toList (ch :: rest)) && !(c == "return 0;")) = true
  have hp : List.isPrefixOf "if (".toList (ch :: rest) = false := by
    show (('i' == ch) && List.isPrefixOf ['f', ' ', '('] rest) = false
    rw [hi, Bool.false_and]
  rw [hp, hsp, hbr, hne]
  rfl

theorem okCode_id_append {x : String} (hx : validId x = true) {suf : String}
    {s1 s2 : Char} {srest : List Char} (hsuf : suf.toList = s1 :: s2 :: srest)
    (hf : ('f' == s1) = false)
    (hk2 : ((' ' == s1) && ('(' == s2)) = false)
    (hr : s2 ∉ "return 0;".toList) :
    okCode (x ++ suf) = true := by
  obtain ⟨ch, t, hxl, hstart, hall⟩ := validId_shape hx
  have hL : (x ++ suf).toList = ch :: (t ++ (s1 :: s2 :: srest)) := by
    rw [toList_append, hxl, hsuf]
    rfl
  have hne : ((x ++ suf) == "return 0;") = false := by
    cases hb : (x ++ suf) == "return 0;" with
    | false => rfl
    | true =>
      have h4 := hL
      rw [eq_of_beq hb] at h4
      have hmem : s2 ∈ "return 0;".toList := by
        rw [h4]
        simp
      exact absurd hmem hr
  have hp : (List.isPrefixOf "if (".toList (ch :: (t ++ (s1 :: s2 :: srest)))) = false := by
    cases t with
    | nil =>
      show (('i' == ch) && (('f' == s1) && List.isPrefixOf [' ', '('] (s2 :: srest))) = false
      rw [hf, Bool.false_and, Bool.and_false]
    | cons c2 t2 =>
      cases t2 with
      | nil =>
        show (('i' == ch) && (('f' == c2)
            && ((' ' == s1) && (('(' == s2) && List.isPrefixOf [] srest)))) = false
        cases hA : (' ' == s1) with
        | false => simp
        | true =>
          cases hB : ('(' == s2) with
          | false => simp
          | true =>
            rw [hA, hB] at hk2
            cases hk2
      | cons c3 t3 =>
        have hc3 : isIdChar c3 = true := by
          simp only [List.all_cons, Bool.and_eq_true] at hall
          exact hall.2.1
        show (('i' == ch) && (('f' == c2) && ((' ' == c3) && _))) = false
        rw [space_beq_of_idChar hc3, Bool.false_and, Bool.and_false, Bool.and_false]
  unfold okCode
  rw [hL]
  show (!(ch == ' ') && !(ch == '\x7d')
      && !(List.isPrefixOf "if (".toList (ch :: (t ++ (s1 :: s2 :: srest))))
      && !((x ++ suf) == "return 0;")) = true
  rw [hp, hne, isIdStart_ne_space hstart, isIdStart_ne_brace hstart]
  rfl

theorem okCode_assign {x : String} (hx : validId x = true) (e : String) :
    okCode (x ++ " = " ++ e ++ ";") = true := by
  have hre : x ++ " = " ++ e ++ ";" = x ++ (" = " ++ (e ++ ";")) := by
    rw [String.append_assoc, String.append_assoc]
  rw [hre]
  have hsuf : (" = " ++ (e ++ ";")).toList = ' ' :: '=' :: ([' '] ++ (e ++ ";").toList) := by
    rw [toList_append]
    rfl
  exact okCode_id_append hx hsuf (by decide) (by decide) (by decide)

theorem okCode_inc {x : String} (hx : validId x = true) :
    okCode (x ++ "++;") = true :=
  okCode_id_append hx (show "++;".toList = '+' :: '+' :: [';'] from rfl)
    (by decide) (by decide) (by decide)

theorem okCode_dec {x : String} (hx : validId x = true) :
    okCode (x ++ "--;") = true :=
  okCode_id_append hx (show "--;".toList = '-' :: '-' :: [';'] from rfl)
    (by decide) (by decide) (by decide)

theorem intercalate_go_shape (s : String) :
    ∀ (l : List String) (acc : String), ∃ r, String.intercalate.go acc s l = acc ++ r := by
  intro l
  induction l with
  | nil =>
    intro acc
    refine ⟨"", ?_⟩
    show acc = acc ++ ""
    cases acc with
    | mk d => exact congrArg String.mk (List.append_nil d).symm
  | cons b bs ih =>
    intro acc
    obtain ⟨r, hr⟩ := ih (acc ++ s ++ b)
    refine ⟨s ++ b ++ r, ?_⟩
    show String.intercalate.go (acc ++ s ++ b) s bs = _
    rw [hr, String.append_assoc, String.append_assoc, String.append_assoc]

theorem intercalate_shape (s a : String) (l : List String) :
    ∃ r, String.intercalate s (a :: l) = a ++ r :=
  intercalate_go_shape s l a

theorem okCode_printf (args : List String) : okCode (printfCode args) = true := by
  have h0 : "printf(\"".toList = 'p' :: "rintf(\"".toList := rfl
  have h1 := toList_cons_append h0 (rstrip (String.join (List.replicate args.length "%d ")))
  have h2 := toList_cons_append h1 "\\n\", "
  have h3 := toList_cons_append h2 (String.intercalate ", " args)
  have h4 := toList_cons_append h3 ");"
  exact okCode_of_head h4 (by decide) (by decide) (by decide) (by decide)

theorem okCode_scanf {args : List String} (h : args ≠ []) :
    okCode (scanfCode args) = true := by
  cases args with
  | nil => exact absurd rfl h
  | cons a rest =>
    obtain ⟨r, hr⟩ := intercalate_shape " " ("scanf(\"%d\", &" ++ a ++ ");")
      (rest.map (fun v => "scanf(\"%d\", &" ++ v ++ ");"))
    have hsc : scanfCode (a :: rest) = ("scanf(\"%d\", &" ++ a ++ ");") ++ r := hr
    have h0 : "scanf(\"%d\", &".toList = 's' :: "canf(\"%d\", &".toList := rfl
    have h1 := toList_cons_append h0 a
    have h2 := toList_cons_append h1 ");"
    have h3 := toList_cons_append h2 r
    rw [hsc]
    exact okCode_of_head h3 (by decide) (by decide) (by decide) (by decide)

theorem okCode_io (f : String) {args : List String} (h : args ≠ []) :
    okCode (ioCode f args) = true := by
  unfold ioCode
  by_cases hf : lowerString f = "writeln" ∨ lowerString f = "write"
  · rw [if_pos hf]
    exact okCode_printf args
  · rw [if_neg hf]
    exact okCode_scanf h

theorem range'_append_my (s m n : Nat) :
    List.range' s m ++ List.range' (s + m) n = List.range' s (m + n) := by
  rw [Nat.add_comm m n]
  simp

theorem connect_counter (a b : Nat) (s : BuildState) : (connect a b s).counter = s.counter := rfl

theorem setTrue_counter (x t : Nat) (s : BuildState) : (setTrue x t s).counter = s.counter := rfl

theorem setFalse_counter (x f : Nat) (s : BuildState) : (setFalse x f s).counter = s.counter := rfl

theorem opNode_good {i : Nat} {l code0 : String} {nx : List Nat}
    (hok : okCode code0 = true) :
    (∀ code, (⟨i, l, nx, .operationNode code0⟩ : FlowNode).kind = .operationNode code →
        okCode code = true) ∧
    (∀ cc tb fb, (⟨i, l, nx, .operationNode code0⟩ : FlowNode).kind = .conditionNode cc tb fb →
        tb.isSome ∧ fb.isSome) := by
  constructor
  · intro code hcode
    injection hcode with h
    rw [← h]
    exact hok
  · intro cc tb fb hc
    exact NodeKind.noConfusion hc

mutual
theorem buildStmt_inv (st : Stmt) (s : BuildState) :
    (∃ k, 1 ≤ k ∧ (buildStmt st s).2.counter = s.counter + k ∧
      (buildStmt st s).2.arena.map FlowNode.id
        = s.arena.map FlowNode.id ++ List.range' s.counter k) ∧
    (validStmt st = true → goodArena s.arena → goodArena (buildStmt st s).2.arena) := by
  cases st with
  | assign x e =>
    refine ⟨⟨1, le_refl 1, rfl, ?_⟩, ?_⟩
    · show (newNode "OP" (.operationNode (x ++ " = " ++ e ++ ";")) s).2.arena.map FlowNode.id = _
      rw [newNode_arena, List.map_append]
      simp [List.range']
    · intro hv hg
      show goodArena (newNode "OP" (.operationNode (x ++ " = " ++ e ++ ";")) s).2.arena
      rw [newNode_arena]
      simp only [validStmt] at hv
      exact goodArena_append hg (opNode_good (okCode_assign hv e))
  | ioStmt f args =>
    refine ⟨⟨1, le_refl 1, rfl, ?_⟩, ?_⟩
    · show (newNode "OP" (.operationNode (ioCode f args)) s).2.arena.map FlowNode.id = _
      rw [newNode_arena, List.map_append]
      simp [List.range']
    · intro hv hg
      show goodArena (newNode "OP" (.operationNode (ioCode f args)) s).2.arena
      rw [newNode_arena]
      simp only [validStmt, Bool.not_eq_true'] at hv
      have hne : args ≠ [] := by
        intro h
        rw [h] at hv
        cases hv
      exact goodArena_append hg (opNode_good (okCode_io f hne))
  | emptyStmt =>
    refine ⟨⟨1, le_refl 1, rfl, ?_⟩, ?_⟩
    · show (newNode "OP" (.operationNode "/* empty */") s).2.arena.map FlowNode.id = _
      rw [newNode_arena, List.map_append]
      simp [List.range']
    · intro hv hg
      show goodArena (newNode "OP" (.operationNode "/* empty */") s).2.arena
      rw [newNode_arena]
      exact goodArena_append hg (opNode_good (by decide))
  | blockStmt body => exact buildStmtList_inv body s
  | ifThen c t =>
    obtain ⟨⟨k, hk1, hkc, hki⟩, hgood⟩ := buildStmt_inv t s
    rcases hts : buildStmt t s with ⟨tseg, s1⟩
    rw [hts] at hkc hki hgood
    replace hkc : s1.counter = s.counter + k := hkc
    replace hki : s1.arena.map FlowNode.id
        = s.arena.map FlowNode.id ++ List.range' s.counter k := hki
    replace hgood : validStmt t = true → goodArena s.arena → goodArena s1.arena := hgood
    simp only [buildStmt, hts]
    refine ⟨⟨k + 1 + 1, by omega, ?_, ?_⟩, ?_⟩
    · simp only [connect_counter, setFalse_counter, newNode_counter, setTrue_counter]
      omega
    · simp only [connect_ids, setFalse_ids, newNode_arena, List.map_append, setTrue_ids,
        newNode_counter, setTrue_counter, List.map_cons, List.map_nil]
      rw [hki, hkc, range'_snoc s.counter (k + 1), range'_snoc s.counter k]
      simp [List.append_assoc, Nat.add_assoc]
    · intro hv hg
      simp only [validStmt] at hv
      have g1 := hgood hv hg
      refine goodArena_of_closed (c := s1.counter) ?_ ?_
      · refine goodExcept_connect ?_ _ _
        refine goodExcept_setFalse ?_ _ _
        rw [newNode_arena]
        refine goodExcept_append ?_ ?_
        · refine goodExcept_setTrue ?_ _ _
          rw [newNode_arena]
          exact goodExcept_append (goodExcept_of_good g1 _)
            ⟨fun code hcode => NodeKind.noConfusion hcode, fun hne => absurd rfl hne⟩
        · exact ⟨(opNode_good (by decide)).1, fun _ => (opNode_good (by decide)).2⟩
      · refine condClosedAt_connect ?_ _ _
        refine condClosedAt_setFalse ?_ _
        rw [newNode_arena]
        refine condTrueAt_append ?_ ?_
        · exact condTrueAt_setTrue _ _ _
        · exact fun _ cc tb fb hc => NodeKind.noConfusion hc
  | ifThenElse c t e =>
    obtain ⟨⟨kt, hkt1, hktc, hkti⟩, hgoodt⟩ := buildStmt_inv t s
    rcases hts : buildStmt t s with ⟨tseg, s1⟩
    rw [hts] at hktc hkti hgoodt
    replace hktc : s1.counter = s.counter + kt := hktc
    replace hkti : s1.arena.map FlowNode.id
        = s.arena.map FlowNode.id ++ List.range' s.counter kt := hkti
    replace hgoodt : validStmt t = true → goodArena s.arena → goodArena s1.arena := hgoodt
    obtain ⟨⟨ke, hke1, hkec, hkei⟩, hgoode⟩ := buildStmt_inv e s1
    rcases hes : buildStmt e s1 with ⟨eseg, s2⟩
    rw [hes] at hkec hkei hgoode
    replace hkec : s2.counter = s1.counter + ke := hkec
    replace hkei : s2.arena.map FlowNode.id
        = s1.arena.map FlowNode.id ++ List.range' s1.counter ke := hkei
    replace hgoode : validStmt e = true → goodArena s1.arena → goodArena s2.arena := hgoode
    have hki12 : s2.arena.map FlowNode.id
        = s.arena.map FlowNode.id ++ List.range' s.counter (kt + ke) := by
      rw [hkei, hkti, hktc, List.append_assoc, range'_append_my]
    simp only [buildStmt, hts, hes]
    refine ⟨⟨kt + ke + 1 + 1, by omega, ?_, ?_⟩, ?_⟩
    · simp only [connect_counter, newNode_counter, setFalse_counter, setTrue_counter]
      omega
    · simp only [connect_ids, newNode_arena, List.map_append, setFalse_ids, setTrue_ids,
        newNode_counter, setFalse_counter, setTrue_counter, List.map_cons, List.map_nil]
      rw [hki12, hkec, hktc, range'_snoc s.counter (kt + ke + 1), range'_snoc s.counter (kt + ke)]
      simp [List.append_assoc, Nat.add_assoc]
    · intro hv hg
      simp only [validStmt, Bool.and_eq_true] at hv
      have g2 := hgoode hv.2 (hgoodt hv.1 hg)
      refine goodArena_of_closed (c := s2.counter) ?_ ?_
      · refine goodExcept_connect ?_ _ _
        refine goodExcept_connect ?_ _ _
        rw [newNode_arena]
        refine goodExcept_append ?_ ?_
        · refine goodExcept_setFalse ?_ _ _
          refine goodExcept_setTrue ?_ _ _
          rw [newNode_arena]
          exact goodExcept_append (goodExcept_of_good g2 _)
            ⟨fun code hcode => NodeKind.noConfusion hcode, fun hne => absurd rfl hne⟩
        · exact ⟨(opNode_good (by decide)).1, fun _ => (opNode_good (by decide)).2⟩
      · refine condClosedAt_connect ?_ _ _
        refine condClosedAt_connect ?_ _ _
        rw [newNode_arena]
        refine condClosedAt_append ?_ ?_
        · refine condClosedAt_setFalse ?_ _
          exact condTrueAt_setTrue _ _ _
        · exact fun _ cc tb fb hc => NodeKind.noConfusion hc
  | whileStmt c body =>
    obtain ⟨⟨k, hk1, hkc, hki⟩, hgood⟩ := buildStmt_inv body s
    rcases hbs : buildStmt body s with ⟨bseg, s1⟩
    rw [hbs] at hkc hki hgood
    replace hkc : s1.counter = s.counter + k := hkc
    replace hki : s1.arena.map FlowNode.id
        = s.arena.map FlowNode.id ++ List.range' s.counter k := hki
    replace hgood : validStmt body = true → goodArena s.arena → goodArena s1.arena := hgood
    simp only [buildStmt, hbs]
    refine ⟨⟨k + 1 + 1, by omega, ?_, ?_⟩, ?_⟩
    · simp only [setFalse_counter, newNode_counter, connect_counter, setTrue_counter]
      omega
    · simp only [setFalse_ids, newNode_arena, List.map_append, connect_ids, setTrue_ids,
        newNode_counter, connect_counter, setTrue_counter, List.map_cons, List.map_nil]
      rw [hki, hkc, range'_snoc s.counter (k + 1), range'_snoc s.counter k]
      simp [List.append_assoc, Nat.add_assoc]
    · intro hv hg
      simp only [validStmt] at hv
      have g1 := hgood hv hg
      refine goodArena_of_closed (c := s1.counter) ?_ ?_
      · refine goodExcept_setFalse ?_ _ _
        rw [newNode_arena]
        refine goodExcept_append ?_ ?_
        · refine goodExcept_connect ?_ _ _
          refine goodExcept_setTrue ?_ _ _
          rw [newNode_arena]
          exact goodExcept_append (goodExcept_of_good g1 _)
            ⟨fun code hcode => NodeKind.noConfusion hcode, fun hne => absurd rfl hne⟩
        · exact ⟨(opNode_good (by decide)).1, fun _ => (opNode_good (by decide)).2⟩
      · refine condClosedAt_setFalse ?_ _
        rw [newNode_arena]
        refine condTrueAt_append ?_ ?_
        · refine condTrueAt_connect ?_ _ _
          exact condTrueAt_setTrue _ _ _
        · exact fun _ cc tb fb hc => NodeKind.noConfusion hc
  | forStmt v lo downto hi body =>
    obtain ⟨⟨k, hk1, hkc, hki⟩, hgood⟩ := buildStmt_inv body s
    rcases hbs : buildStmt body s with ⟨bseg, s1⟩
    rw [hbs] at hkc hki hgood
    replace hkc : s1.counter = s.counter + k := hkc
    replace hki : s1.arena.map FlowNode.id
        = s.arena.map FlowNode.id ++ List.range' s.counter k := hki
    replace hgood : validStmt body = true → goodArena s.arena → goodArena s1.arena := hgood
    simp only [buildStmt, hbs]
    refine ⟨⟨k + 1 + 1 + 1 + 1, by omega, ?_, ?_⟩, ?_⟩
    · simp only [setFalse_counter, newNode_counter, connect_counter, setTrue_counter]
      omega
    · simp only [setFalse_ids, newNode_arena, List.map_append, connect_ids, setTrue_ids,
        newNode_counter, connect_counter, setTrue_counter, List.map_cons, List.map_nil]
      rw [hki, hkc, range'_snoc s.counter (k + 1 + 1 + 1), range'_snoc s.counter (k + 1 + 1),
        range'_snoc s.counter (k + 1), range'_snoc s.counter k]
      simp [List.append_assoc, Nat.add_assoc]
    · intro hv hg
      simp only [validStmt, Bool.and_eq_true] at hv
      have g1 := hgood hv.2 hg
      have hstep : okCode (if downto then v ++ "--;" else v ++ "++;") = true := by
        cases downto with
        | true => exact okCode_dec hv.1
        | false => exact okCode_inc hv.1
      refine goodArena_of_closed (c := s1.counter + 1) ?_ ?_
      · refine goodExcept_setFalse ?_ _ _
        rw [newNode_arena]
        refine goodExcept_append ?_ ?_
        · refine goodExcept_connect ?_ _ _
          refine goodExcept_connect ?_ _ _
          refine goodExcept_setTrue ?_ _ _
          refine goodExcept_connect ?_ _ _
          rw [newNode_arena]
          refine goodExcept_append ?_ ?_
          · rw [newNode_arena]
            refine goodExcept_append ?_ ?_
            · rw [newNode_arena]
              refine goodExcept_of_good ?_ _
              exact goodArena_append g1 (opNode_good (okCode_assign hv.1 lo))
            · exact ⟨fun code hcode => NodeKind.noConfusion hcode, fun hne => absurd rfl hne⟩
          · exact ⟨(opNode_good hstep).1, fun _ => (opNode_good hstep).2⟩
        · exact ⟨(opNode_good (by decide)).1, fun _ => (opNode_good (by decide)).2⟩
      · refine condClosedAt_setFalse ?_ _
        rw [newNode_arena]
        refine condTrueAt_append ?_ ?_
        · refine condTrueAt_connect ?_ _ _
          refine condTrueAt_connect ?_ _ _
          exact condTrueAt_setTrue _ _ _
        · exact fun _ cc tb fb hc => NodeKind.noConfusion hc
  | repeatStmt body c =>
    obtain ⟨⟨k, hk1, hkc, hki⟩, hgood⟩ := buildStmtList_inv body s
    rcases hbs : buildStmtList body s with ⟨bseg, s1⟩
    rw [hbs] at hkc hki hgood
    replace hkc : s1.counter = s.counter + k := hkc
    replace hki : s1.arena.map FlowNode.id
        = s.arena.map FlowNode.id ++ List.range' s.counter k := hki
    replace hgood : validStmtList body = true → goodArena s.arena → goodArena s1.arena := hgood
    simp only [buildStmt, hbs]
    refine ⟨⟨k + 1 + 1, by omega, ?_, ?_⟩, ?_⟩
    · simp only [setFalse_counter, setTrue_counter, newNode_counter, connect_counter]
      omega
    · simp only [setFalse_ids, setTrue_ids, newNode_arena, List.map_append, connect_ids,
        newNode_counter, connect_counter, List.map_cons, List.map_nil]
      rw [hki, hkc, range'_snoc s.counter (k + 1), range'_snoc s.counter k]
      simp [List.append_assoc, Nat.add_assoc]
    · intro hv hg
      simp only [validStmt] at hv
      have g1 := hgood hv hg
      refine goodArena_of_closed (c := s1.counter) ?_ ?_
      · refine goodExcept_setFalse ?_ _ _
        refine goodExcept_setTrue ?_ _ _
        rw [newNode_arena]
        refine goodExcept_append ?_ ?_
        · refine goodExcept_connect ?_ _ _
          rw [newNode_arena]
          exact goodExcept_append (goodExcept_of_good g1 _)
            ⟨fun code hcode => NodeKind.noConfusion hcode, fun hne => absurd rfl hne⟩
        · exact ⟨(opNode_good (by decide)).1, fun _ => (opNode_good (by decide)).2⟩
      · refine condClosedAt_setFalse ?_ _
        exact condTrueAt_setTrue _ _ _
theorem buildStmtList_inv (l : StmtList) (s : BuildState) :
    (∃ k, 1 ≤ k ∧ (buildStmtList l s).2.counter = s.counter + k ∧
      (buildStmtList l s).2.arena.map FlowNode.id
        = s.arena.map FlowNode.id ++ List.range' s.counter k) ∧
    (validStmtList l = true → goodArena s.arena → goodArena (buildStmtList l s).2.arena) := by
  cases l with
  | single st => exact buildStmt_inv st s
  | snoc l st =>
    obtain ⟨⟨k1, hk11, hk1c, hk1i⟩, hgood1⟩ := buildStmtList_inv l s
    rcases hls : buildStmtList l s with ⟨seg1, s1⟩
    rw [hls] at hk1c hk1i hgood1
    replace hk1c : s1.counter = s.counter + k1 := hk1c
    replace hk1i : s1.arena.map FlowNode.id
        = s.arena.map FlowNode.id ++ List.range' s.counter k1 := hk1i
    replace hgood1 : validStmtList l = true → goodArena s.arena → goodArena s1.arena := hgood1
    obtain ⟨⟨k2, hk21, hk2c, hk2i⟩, hgood2⟩ := buildStmt_inv st s1
    rcases hss : buildStmt st s1 with ⟨seg2, s2⟩
    rw [hss] at hk2c hk2i hgood2
    replace hk2c : s2.counter = s1.counter + k2 := hk2c
    replace hk2i : s2.arena.map FlowNode.id
        = s1.arena.map FlowNode.id ++ List.range' s1.counter k2 := hk2i
    replace hgood2 : validStmt st = true → goodArena s1.arena → goodArena s2.arena := hgood2
    simp only [buildStmtList, hls, hss]
    refine ⟨⟨k1 + k2, by omega, ?_, ?_⟩, ?_⟩
    · simp only [connect_counter]
      omega
    · simp only [connect_ids]
      rw [hk2i, hk1i, hk1c, List.append_assoc, range'_append_my]
    · intro hv hg
      simp only [validStmtList, Bool.and_eq_true] at hv
      exact goodArena_connect (hgood2 hv.2 (hgood1 hv.1 hg)) _ _
end

theorem buildProgram_inv (p : StmtList) (s : BuildState) :
    (∃ k, 1 ≤ k ∧ (buildProgram p s).2.counter = s.counter + k + 2 ∧
      (buildProgram p s).2.arena.map FlowNode.id
        = s.arena.map FlowNode.id ++ List.range' s.counter (k + 2)) ∧
    (validStmtList p = true → goodArena s.arena → goodArena (buildProgram p s).2.arena) := by
  obtain ⟨⟨k, hk1, hkc, hki⟩, hgood⟩ := buildStmtList_inv p s
  rcases hps : buildStmtList p s with ⟨seg, s1⟩
  rw [hps] at hkc hki hgood
  replace hkc : s1.counter = s.counter + k := hkc
  replace hki : s1.arena.map FlowNode.id
      = s.arena.map FlowNode.id ++ List.range' s.counter k := hki
  replace hgood : validStmtList p = true → goodArena s.arena → goodArena s1.arena := hgood
  simp only [buildProgram, hps]
  refine ⟨⟨k, hk1, ?_, ?_⟩, ?_⟩
  · simp only [connect_counter, newNode_counter]
    omega
  · simp only [connect_ids, newNode_arena, List.map_append, newNode_counter,
      List.map_cons, List.map_nil]
    rw [hki, hkc, range'_snoc s.counter (k + 1), range'_snoc s.counter k]
    simp [List.append_assoc, Nat.add_assoc]
  · intro hv hg
    have g1 := hgood hv hg
    refine goodArena_connect ?_ _ _
    refine goodArena_connect ?_ _ _
    rw [newNode_arena]
    refine goodArena_append ?_ ?_
    · rw [newNode_arena]
      exact goodArena_append g1
        ⟨fun code hc => NodeKind.noConfusion hc, fun cc tb fb hc => NodeKind.noConfusion hc⟩
    · exact ⟨fun code hc => NodeKind.noConfusion hc, fun cc tb fb hc => NodeKind.noConfusion hc⟩

/-- A grammatically valid program always builds a good arena: operation
codes are well shaped and every condition has both branches assigned. -/
theorem builtArena_good {p : StmtList} (hv : validStmtList p = true) :
    goodArena (builtArena p) :=
  (buildProgram_inv p initState).2 hv goodArena_nil

/-- The ids of a freshly built graph are exactly 0, 1, ..., N-1. -/
theorem builtIds_range (p : StmtList) : ∃ k, 1 ≤ k ∧ builtIds p = List.range' 0 (k + 2) := by
  obtain ⟨⟨k, hk1, hkc, hki⟩, -⟩ := buildProgram_inv p initState
  refine ⟨k, hk1, ?_⟩
  have h2 : builtIds p = initState.arena.map FlowNode.id ++ List.range' initState.counter (k + 2) := hki
  simpa using h2

/-- Within one graph no two nodes share an id. -/
theorem builtIds_nodup (p : StmtList) : (builtIds p).Nodup := by
  obtain ⟨k, -, h⟩ := builtIds_range p
  rw [h]
  exact List.nodup_range' ..

/-- Building a second graph while keeping the counter of the first: the ids
of the nodes added for the second graph avoid all ids of the first. -/
theorem sequential_ids_fresh (p q : StmtList) :
    ∃ newIds, (buildProgram q (buildProgram p initState).2).2.arena.map FlowNode.id
        = builtIds p ++ newIds ∧ ∀ i ∈ newIds, i ∉ builtIds p := by
  obtain ⟨⟨K, hK1, hKc, hKi⟩, -⟩ := buildProgram_inv p initState
  obtain ⟨⟨k, hk1, hkc, hki⟩, -⟩ := buildProgram_inv q (buildProgram p initState).2
  refine ⟨List.range' (buildProgram p initState).2.counter (k + 2), hki, ?_⟩
  intro i hi
  rw [List.mem_range'_1] at hi
  intro hmem
  have hIdEq : builtIds p = List.range' 0 (K + 2) := by
    have h2 : builtIds p
        = initState.arena.map FlowNode.id ++ List.range' initState.counter (K + 2) := hKi
    simpa using h2
  rw [hIdEq, List.mem_range'_1] at hmem
  have hc0 : (buildProgram p initState).2.counter = K + 2 := by
    have h3 : (buildProgram p initState).2.counter = initState.counter + K + 2 := hKc
    simpa [initState] using h3
  omega

/-! ### No line is emitted more often than the arena has nodes carrying it -/

theorem beq_toList_eq (a b : String) : (a.toList == b.toList) = (a == b) := by
  cases ha : a == b with
  | true =>
    rw [eq_of_beq ha]
    simp
  | false =>
    cases hb : a.toList == b.toList with
    | false => rfl
    | true =>
      have hab : a = b := by
        have h := eq_of_beq hb
        cases a with
        | mk d1 =>
          cases b with
          | mk d2 => exact congrArg String.mk h
      rw [hab] at ha
      simp at ha

theorem afterIndent_okCode {code : String} (hok : okCode code = true) (k : Nat) :
    afterIndent (indentOf k ++ code) = code.toList := by
  unfold okCode at hok
  cases hc : code.toList with
  | nil => rw [hc] at hok; simp at hok
  | cons h t =>
    rw [hc] at hok
    simp only [Bool.and_eq_true, Bool.not_eq_true', beq_eq_false_iff_ne, ne_eq] at hok
    rw [afterIndent_indent, afterIndent_of_head hc hok.1.1.1]
    exact hc

theorem codeline_op {code c : String} (hok : okCode code = true) (k : Nat) :
    (afterIndent (indentOf k ++ code) == c.toList) = (code == c) := by
  rw [afterIndent_okCode hok, beq_toList_eq]

theorem codeline_header {c : String} (hok : okCode c = true) (k : Nat) (cc : String) :
    (afterIndent (indentOf k ++ ("if (" ++ cc ++ ") \x7b")) == c.toList) = false := by
  have h0 : ("if (" ++ cc ++ ") \x7b").toList =
      'i' :: ('f' :: ' ' :: '(' :: (cc.toList ++ ") \x7b".toList)) := by
    rw [toList_append, toList_append]
    rfl
  have h1 : afterIndent (indentOf k ++ ("if (" ++ cc ++ ") \x7b")) =
      'i' :: ('f' :: ' ' :: '(' :: (cc.toList ++ ") \x7b".toList)) := by
    rw [afterIndent_indent, afterIndent_of_head h0 (by decide), h0]
  rw [h1]
  cases hb : (('i' :: ('f' :: ' ' :: '(' :: (cc.toList ++ ") \x7b".toList)) : List Char)
      == c.toList) with
  | false => rfl
  | true =>
    exfalso
    have heq := eq_of_beq hb
    unfold okCode at hok
    cases hc : c.toList with
    | nil => rw [hc] at hok; simp at hok
    | cons h t =>
      rw [hc] at hok
      simp only [Bool.and_eq_true, Bool.not_eq_true'] at hok
      have hpre := hok.1.2
      have hyes : List.isPrefixOf "if (".toList (h :: t) = true := by
        rw [← hc, ← heq, List.isPrefixOf_iff_prefix]
        exact ⟨cc.toList ++ ") \x7b".toList, rfl⟩
      rw [hyes] at hpre
      cases hpre

theorem codeline_else {c : String} (hok : okCode c = true) (k : Nat) :
    (afterIndent (indentOf k ++ "\x7d else \x7b") == c.toList) = false := by
  have h1 : afterIndent (indentOf k ++ "\x7d else \x7b") = "\x7d else \x7b".toList := by
    rw [afterIndent_indent]
    exact afterIndent_of_head (t := "\x7d else \x7b") rfl (by decide)
  rw [h1]
  cases hb : ("\x7d else \x7b".toList == c.toList) with
  | false => rfl
  | true =>
    exfalso
    have heq := eq_of_beq hb
    unfold okCode at hok
    cases hc : c.toList with
    | nil => rw [hc] at hok; simp at hok
    | cons h t =>
      rw [hc] at hok
      simp only [Bool.and_eq_true, Bool.not_eq_true'] at hok
      have hbr := hok.1.1.2
      rw [hc] at heq
      have hh : '\x7d' = h := by
        have h2 := congrArg List.head? heq
        simpa using h2
      rw [← hh] at hbr
      simp at hbr

theorem codeline_close {c : String} (hok : okCode c = true) (k : Nat) :
    (afterIndent (indentOf k ++ "\x7d") == c.toList) = false := by
  have h1 : afterIndent (indentOf k ++ "\x7d") = "\x7d".toList := by
    rw [afterIndent_indent]
    exact afterIndent_of_head (t := "\x7d") rfl (by decide)
  rw [h1]
  cases hb : ("\x7d".toList == c.toList) with
  | false => rfl
  | true =>
    exfalso
    have heq := eq_of_beq hb
    unfold okCode at hok
    cases hc : c.toList with
    | nil => rw [hc] at hok; simp at hok
    | cons h t =>
      rw [hc] at hok
      simp only [Bool.and_eq_true, Bool.not_eq_true'] at hok
      have hbr := hok.1.1.2
      rw [hc] at heq
      have hh : '\x7d' = h := by
        have h2 := congrArg List.head? heq
        simpa using h2
      rw [← hh] at hbr
      simp at hbr

theorem countP_lt_of_witness {l : List Nat} {p q : Nat → Bool}
    (hle : ∀ a ∈ l, q a = true → p a = true) {w : Nat} (hw : w ∈ l)
    (hpw : p w = true) (hqw : q w = false) :
    l.countP q < l.countP p := by
  induction l with
  | nil => cases hw
  | cons a as ih =>
    rw [List.countP_cons, List.countP_cons]
    by_cases ha : a = w
    · subst ha
      rw [hpw, hqw]
      have hmono : as.countP q ≤ as.countP p :=
        List.countP_mono_left (fun x hx => hle x (List.mem_cons_of_mem a hx))
      simp
      omega
    · have hw2 : w ∈ as := by
        cases List.mem_cons.1 hw with
        | inl hh => exact absurd hh.symm ha
        | inr hh => exact hh
      have hrec := ih (fun x hx => hle x (List.mem_cons_of_mem a hx)) hw2
      have hqa : (if q a = true then 1 else 0) ≤ (if p a = true then 1 else 0) := by
        by_cases hq : q a = true
        · rw [hq, hle a (List.mem_cons_self a as) hq]
        · simp [hq]
      omega

theorem opsWithCode_mono {g : List FlowNode} {c : String} {v1 v2 : List Nat}
    (h : v1 ⊆ v2) : opsWithCode g c v2 ≤ opsWithCode g c v1 := by
  unfold opsWithCode
  rw [← List.countP_eq_length_filter, ← List.countP_eq_length_filter]
  apply List.countP_mono_left
  intro a _ ha
  simp only [Bool.and_eq_true, decide_eq_true_eq] at ha ⊢
  exact ⟨fun hmem => ha.1 (h hmem), ha.2⟩

theorem opsWithCode_insert_lt {g : List FlowNode} {c : String} {v : List Nat} {nid : Nat}
    {n : FlowNode} (hfind : findNode g nid = some n) (hk : n.kind = .operationNode c)
    (hnv : nid ∉ v) :
    opsWithCode g c (nid :: v) < opsWithCode g c v := by
  unfold opsWithCode
  rw [← List.countP_eq_length_filter, ← List.countP_eq_length_filter]
  have hmem := findNode_mem hfind
  refine countP_lt_of_witness ?_ (List.mem_dedup.2 (List.mem_map.2 ⟨n, hmem.1, hmem.2⟩)) ?_ ?_
  · intro a _ ha
    simp only [Bool.and_eq_true, decide_eq_true_eq] at ha ⊢
    exact ⟨fun hm => ha.1 (List.mem_cons_of_mem nid hm), ha.2⟩
  · simp only [Bool.and_eq_true, decide_eq_true_eq]
    refine ⟨hnv, ?_⟩
    simp [hfind, hk]
  · simp

theorem codeLineCount_emit (c : String) (st : GenState) (t : String) :
    codeLineCount c (emit st t).lines =
      codeLineCount c st.lines +
        (if (afterIndent (indentOf st.indent_level ++ t) == c.toList) then 1 else 0) :=
  countP_emit _ st t

theorem emit_visited (st : GenState) (t : String) : (emit st t).visited = st.visited := rfl

theorem genState_visited (a : List String) (b : Nat) (c : List Nat) :
    (GenState.mk a b c).visited = c := rfl

/-- The emitted occurrences of a well-shaped code line plus the unvisited
operation nodes carrying that code never increase along the walk: each such
line is emitted only by consuming an unvisited node. -/
theorem walk_codecount (g : List FlowNode) (hg : goodArena g) {c : String}
    (hc : okCode c = true) : ∀ fuel,
    (∀ st nid st', walk g fuel st nid = some st' →
      codeLineCount c st'.lines + opsWithCode g c st'.visited ≤
        codeLineCount c st.lines + opsWithCode g c st.visited) ∧
    (∀ st ns st', walkSeq (walk g fuel) st ns = some st' →
      codeLineCount c st'.lines + opsWithCode g c st'.visited ≤
        codeLineCount c st.lines + opsWithCode g c st.visited) := by
  intro fuel
  induction fuel with
  | zero =>
    constructor
    · intro st nid st' h
      rw [walk] at h
      cases h
    · intro st ns st' h
      cases ns with
      | nil =>
        rw [walkSeq] at h
        cases h
        omega
      | cons n ns =>
        rw [walkSeq] at h
        obtain ⟨st1, hw, h2⟩ := obind_eq_some h
        rw [walk] at hw
        cases hw
  | succ fuel ih =>
    have hconsmono : ∀ (nid : Nat) (v : List Nat),
        opsWithCode g c (nid :: v) ≤ opsWithCode g c v :=
      fun nid v => opsWithCode_mono (fun x hx => List.mem_cons_of_mem _ hx)
    have walkStep : ∀ st nid st', walk g (fuel + 1) st nid = some st' →
        codeLineCount c st'.lines + opsWithCode g c st'.visited ≤
          codeLineCount c st.lines + opsWithCode g c st.visited := by
      intro st nid st' h
      rw [walk] at h
      by_cases hv : nid ∈ st.visited
      · rw [if_pos hv] at h
        cases h
        omega
      · rw [if_neg hv] at h
        split at h
        next hfind =>
          cases h
          simp only [genState_lines, genState_visited]
          have := hconsmono nid st.visited
          omega
        next node hfind =>
          have hmem := (findNode_mem hfind).1
          split at h
          next code hkind =>
            have hokc : okCode code = true := (hg node hmem).1 code hkind
            have hs := ih.2 _ _ _ h
            rw [codeLineCount_emit] at hs
            rw [codeline_op hokc] at hs
            rw [emit_visited] at hs
            simp only [genState_lines, genState_visited] at hs
            by_cases hcc : (code == c) = true
            · have hceq : code = c := eq_of_beq hcc
              subst hceq
              rw [hcc] at hs
              simp only [if_true] at hs
              have hlt := opsWithCode_insert_lt hfind hkind hv
              omega
            · have hfalse : (code == c) = false := by
                cases hb2 : code == c with
                | true => exact absurd hb2 hcc
                | false => rfl
              rw [hfalse] at hs
              simp only [Bool.false_eq_true, if_false] at hs
              have := hconsmono nid st.visited
              omega
          next cond_code tb fb hkind =>
            obtain ⟨st1, hw, h⟩ := obind_eq_some h
            have hH : ∀ k,
                (afterIndent (indentOf k ++ ("if (" ++ cond_code ++ ") \x7b")) == c.toList)
                  = false :=
              fun k => codeline_header hc k cond_code
            have e1 : codeLineCount c st1.lines + opsWithCode g c st1.visited ≤
                codeLineCount c st.lines + opsWithCode g c (nid :: st.visited) := by
              cases tb with
              | some t =>
                have := ih.1 _ _ _ hw
                rw [codeLineCount_emit, hH, emit_visited] at this
                simp only [genState_lines, genState_visited, Bool.false_eq_true, if_false] at this
                omega
              | none =>
                cases hw
                rw [codeLineCount_emit, hH, emit_visited]
                simp only [genState_lines, genState_visited, Bool.false_eq_true, if_false]
                omega
            simp only [] at h
            cases fb with
            | some f =>
              obtain ⟨st5, hwf, h⟩ := obind_eq_some h
              have hE : ∀ k, (afterIndent (indentOf k ++ "\x7d else \x7b") == c.toList) = false :=
                fun k => codeline_else hc k
              have hC : ∀ k, (afterIndent (indentOf k ++ "\x7d") == c.toList) = false :=
                fun k => codeline_close hc k
              have e2 := ih.1 _ _ _ hwf
              have e3 := ih.2 _ _ _ h
              rw [codeLineCount_emit, hE, emit_visited] at e2
              simp only [genState_lines, genState_visited, Bool.false_eq_true, if_false] at e2
              rw [codeLineCount_emit, hC, emit_visited] at e3
              simp only [genState_lines, genState_visited, Bool.false_eq_true, if_false] at e3
              have := hconsmono nid st.visited
              omega
            | none =>
              have hE2 := ((hg node hmem).2 cond_code tb none hkind).2
              simp at hE2
          next h1 h2 =>
            have hs := ih.2 _ _ _ h
            simp only [genState_lines, genState_visited] at hs
            have := hconsmono nid st.visited
            omega
    refine ⟨walkStep, ?_⟩
    intro st ns st' h
    induction ns generalizing st with
    | nil =>
      rw [walkSeq] at h
      cases h
      omega
    | cons n ns ihn =>
      rw [walkSeq] at h
      obtain ⟨st1, hw, h2⟩ := obind_eq_some h
      have a1 := walkStep _ _ _ hw
      have a2 := ihn _ h2
      omega

/-! ### Linear programs build straight chains -/

theorem chainNodes_ids : ∀ (codes : List String) (c : Nat),
    ∀ n ∈ chainNodes c codes, c ≤ n.id ∧ n.id < c + codes.length := by
  intro codes
  induction codes with
  | nil => intro c n hn; cases hn
  | cons code rest ih =>
    intro c n hn
    cases rest with
    | nil =>
      rw [show chainNodes c [code] = [⟨c, "OP", [], .operationNode code⟩] from rfl,
        List.mem_singleton] at hn
      subst hn
      simp
    | cons code2 rest2 =>
      rw [show chainNodes c (code :: code2 :: rest2)
          = ⟨c, "OP", [c + 1], .operationNode code⟩ :: chainNodes (c + 1) (code2 :: rest2)
        from rfl, List.mem_cons] at hn
      cases hn with
      | inl h =>
        subst h
        simp
      | inr h =>
        have := ih (c + 1) n h
        simp only [List.length_cons] at this ⊢
        omega

theorem chainTo_ids : ∀ (codes : List String) (c t : Nat),
    ∀ n ∈ chainTo c codes t, c ≤ n.id ∧ n.id < c + codes.length := by
  intro codes
  induction codes with
  | nil => intro c t n hn; cases hn
  | cons code rest ih =>
    intro c t n hn
    cases rest with
    | nil =>
      rw [show chainTo c [code] t = [⟨c, "OP", [t], .operationNode code⟩] from rfl,
        List.mem_singleton] at hn
      subst hn
      simp
    | cons code2 rest2 =>
      rw [show chainTo c (code :: code2 :: rest2) t
          = ⟨c, "OP", [c + 1], .operationNode code⟩ :: chainTo (c + 1) (code2 :: rest2) t
        from rfl, List.mem_cons] at hn
      cases hn with
      | inl h =>
        subst h
        simp
      | inr h =>
        have := ih (c + 1) t n h
        simp only [List.length_cons] at this ⊢
        omega

theorem chainTo_length : ∀ (codes : List String) (c t : Nat),
    (chainTo c codes t).length = codes.length := by
  intro codes
  induction codes with
  | nil => intro c t; rfl
  | cons code rest ih =>
    intro c t
    cases rest with
    | nil => rfl
    | cons code2 rest2 =>
      rw [show chainTo c (code :: code2 :: rest2) t
          = ⟨c, "OP", [c + 1], .operationNode code⟩ :: chainTo (c + 1) (code2 :: rest2) t
        from rfl]
      simp [ih (c + 1) t]

theorem connect_arena (a b : Nat) (s : BuildState) :
    (connect a b s).arena
      = s.arena.map (fun m => if m.id = a then { m with next := m.next ++ [b] } else m) := rfl

theorem connect_map_fix (l : List FlowNode) (a b : Nat) (h : ∀ m ∈ l, m.id ≠ a) :
    l.map (fun m => if m.id = a then { m with next := m.next ++ [b] } else m) = l := by
  induction l with
  | nil => rfl
  | cons m ms ih =>
    rw [List.map_cons, if_neg (h m (List.mem_cons_self m ms)),
      ih (fun x hx => h x (List.mem_cons_of_mem m hx))]

theorem chain_map_connect : ∀ (codes : List String) (c b n a : Nat),
    codes.length = n + 1 → a = c + n →
    (chainNodes c codes).map
      (fun m => if m.id = a then { m with next := m.next ++ [b] } else m)
    = chainTo c codes b := by
  intro codes
  induction codes with
  | nil =>
    intro c b n a h _
    exact absurd h (by simp)
  | cons code rest ih =>
    intro c b n a h ha
    subst ha
    cases rest with
    | nil =>
      have hn : n = 0 := by simp at h; omega
      subst hn
      rw [show chainNodes c [code] = [(⟨c, "OP", [], .operationNode code⟩ : FlowNode)] from rfl,
        show chainTo c [code] b = [(⟨c, "OP", [b], .operationNode code⟩ : FlowNode)] from rfl,
        List.map_cons]
      simp
    | cons code2 rest2 =>
      obtain ⟨m, rfl⟩ : ∃ m, n = m + 1 := by
        refine ⟨n - 1, ?_⟩
        simp at h
        omega
      have hlen : (code2 :: rest2).length = m + 1 := by
        simp at h ⊢
        omega
      show (⟨c, "OP", [c + 1], .operationNode code⟩ :: chainNodes (c + 1) (code2 :: rest2)).map _
          = ⟨c, "OP", [c + 1], .operationNode code⟩ :: chainTo (c + 1) (code2 :: rest2) b
      rw [List.map_cons]
      congr 1
      · exact if_neg (by simp)
      · have harith : c + (m + 1) = (c + 1) + m := by omega
        rw [harith]
        exact ih (c + 1) b m ((c + 1) + m) hlen rfl

theorem chainNodes_append : ∀ (codes1 : List String) (codes2 : List String) (c : Nat),
    codes2 ≠ [] →
    chainNodes c (codes1 ++ codes2)
      = chainTo c codes1 (c + codes1.length) ++ chainNodes (c + codes1.length) codes2 := by
  intro codes1
  induction codes1 with
  | nil =>
    intro codes2 c _
    simp [chainTo]
  | cons x rest ih =>
    intro codes2 c h2
    cases rest with
    | nil =>
      cases codes2 with
      | nil => exact absurd rfl h2
      | cons y ys =>
        show chainNodes c (x :: y :: ys)
            = chainTo c [x] (c + 1) ++ chainNodes (c + 1) (y :: ys)
        rw [show chainNodes c (x :: y :: ys)
            = ⟨c, "OP", [c + 1], .operationNode x⟩ :: chainNodes (c + 1) (y :: ys) from rfl,
          show chainTo c [x] (c + 1) = [⟨c, "OP", [c + 1], .operationNode x⟩] from rfl]
        rfl
    | cons x2 rest2 =>
      have hmid : (x2 :: rest2) ++ codes2 ≠ [] := by simp
      show chainNodes c (x :: ((x2 :: rest2) ++ codes2))
          = chainTo c (x :: x2 :: rest2) (c + (x :: x2 :: rest2).length)
            ++ chainNodes (c + (x :: x2 :: rest2).length) codes2
      rw [show chainNodes c (x :: ((x2 :: rest2) ++ codes2))
          = ⟨c, "OP", [c + 1], .operationNode x⟩ :: chainNodes (c + 1) ((x2 :: rest2) ++ codes2)
        from rfl]
      rw [ih codes2 (c + 1) h2]
      rw [show chainTo c (x :: x2 :: rest2) (c + (x :: x2 :: rest2).length)
          = ⟨c, "OP", [c + 1], .operationNode x⟩
            :: chainTo (c + 1) (x2 :: rest2) (c + (x :: x2 :: rest2).length) from rfl]
      have harith : (c + 1) + (x2 :: rest2).length = c + (x :: x2 :: rest2).length := by
        simp
        omega
      rw [harith]
      rfl

mutual
theorem buildStmt_chain (st : Stmt) (s : BuildState) :
    linearStmt st = true → (∀ n ∈ s.arena, n.id < s.counter) →
    ∃ m, (stmtCodes st).length = m + 1 ∧
      (buildStmt st s).2.arena = s.arena ++ chainNodes s.counter (stmtCodes st) ∧
      (buildStmt st s).2.counter = s.counter + (m + 1) ∧
      (buildStmt st s).1 = ⟨s.counter, s.counter + m⟩ := by
  cases st with
  | assign x e =>
    intro _ _
    refine ⟨0, rfl, ?_, rfl, ?_⟩
    · show (newNode "OP" (.operationNode (x ++ " = " ++ e ++ ";")) s).2.arena = _
      rw [newNode_arena]
      rfl
    · show (⟨s.counter, s.counter⟩ : FlowSegment) = ⟨s.counter, s.counter + 0⟩
      simp
  | ioStmt f args =>
    intro _ _
    refine ⟨0, rfl, ?_, rfl, ?_⟩
    · show (newNode "OP" (.operationNode (ioCode f args)) s).2.arena = _
      rw [newNode_arena]
      rfl
    · show (⟨s.counter, s.counter⟩ : FlowSegment) = ⟨s.counter, s.counter + 0⟩
      simp
  | emptyStmt =>
    intro _ _
    refine ⟨0, rfl, ?_, rfl, ?_⟩
    · show (newNode "OP" (.operationNode "/* empty */") s).2.arena = _
      rw [newNode_arena]
      rfl
    · show (⟨s.counter, s.counter⟩ : FlowSegment) = ⟨s.counter, s.counter + 0⟩
      simp
  | blockStmt body =>
    intro hlin hwf
    exact buildStmtList_chain body s hlin hwf
  | ifThen c t => intro hlin _; simp [linearStmt] at hlin
  | ifThenElse c t e => intro hlin _; simp [linearStmt] at hlin
  | whileStmt c body => intro hlin _; simp [linearStmt] at hlin
  | forStmt v lo downto hi body => intro hlin _; simp [linearStmt] at hlin
  | repeatStmt body c => intro hlin _; simp [linearStmt] at hlin
theorem buildStmtList_chain (l : StmtList) (s : BuildState) :
    linearStmtList l = true → (∀ n ∈ s.arena, n.id < s.counter) →
    ∃ m, (stmtListCodes l).length = m + 1 ∧
      (buildStmtList l s).2.arena = s.arena ++ chainNodes s.counter (stmtListCodes l) ∧
      (buildStmtList l s).2.counter = s.counter + (m + 1) ∧
      (buildStmtList l s).1 = ⟨s.counter, s.counter + m⟩ := by
  cases l with
  | single st =>
    intro hlin hwf
    exact buildStmt_chain st s hlin hwf
  | snoc l st =>
    intro hlin hwf
    simp only [linearStmtList, Bool.and_eq_true] at hlin
    obtain ⟨m1, hm1, ha1, hc1, hseg1⟩ := buildStmtList_chain l s hlin.1 hwf
    rcases hls : buildStmtList l s with ⟨seg1, s1⟩
    rw [hls] at ha1 hc1 hseg1
    replace ha1 : s1.arena = s.arena ++ chainNodes s.counter (stmtListCodes l) := ha1
    replace hc1 : s1.counter = s.counter + (m1 + 1) := hc1
    replace hseg1 : seg1 = ⟨s.counter, s.counter + m1⟩ := hseg1
    have hwf1 : ∀ n ∈ s1.arena, n.id < s1.counter := by
      intro n hn
      rw [ha1] at hn
      rcases List.mem_append.1 hn with hn | hn
      · have := hwf n hn
        omega
      · have := chainNodes_ids (stmtListCodes l) s.counter n hn
        rw [hm1] at this
        omega
    obtain ⟨m2, hm2, ha2, hc2, hseg2⟩ := buildStmt_chain st s1 hlin.2 hwf1
    rcases hss : buildStmt st s1 with ⟨seg2, s2⟩
    rw [hss] at ha2 hc2 hseg2
    replace ha2 : s2.arena = s1.arena ++ chainNodes s1.counter (stmtCodes st) := ha2
    replace hc2 : s2.counter = s1.counter + (m2 + 1) := hc2
    replace hseg2 : seg2 = ⟨s1.counter, s1.counter + m2⟩ := hseg2
    subst hseg1
    subst hseg2
    simp only [buildStmtList, hls, hss]
    refine ⟨m1 + 1 + m2, ?_, ?_, ?_, ?_⟩
    · simp only [stmtListCodes, List.length_append, hm1, hm2]
      omega
    · rw [connect_arena, ha2, ha1, hc1]
      rw [List.map_append, List.map_append]
      have hfix1 : s.arena.map
          (fun m => if m.id = s.counter + m1
            then { m with next := m.next ++ [s.counter + (m1 + 1)] } else m) = s.arena := by
        refine connect_map_fix _ _ _ ?_
        intro n hn
        have := hwf n hn
        omega
      have hchain1 : (chainNodes s.counter (stmtListCodes l)).map
          (fun m => if m.id = s.counter + m1
            then { m with next := m.next ++ [s.counter + (m1 + 1)] } else m)
          = chainTo s.counter (stmtListCodes l) (s.counter + (m1 + 1)) := by
        exact chain_map_connect (stmtListCodes l) s.counter (s.counter + (m1 + 1)) m1
          (s.counter + m1) hm1 rfl
      have hfix2 : (chainNodes (s.counter + (m1 + 1)) (stmtCodes st)).map
          (fun m => if m.id = s.counter + m1
            then { m with next := m.next ++ [s.counter + (m1 + 1)] } else m)
          = chainNodes (s.counter + (m1 + 1)) (stmtCodes st) := by
        refine connect_map_fix _ _ _ ?_
        intro n hn
        have := chainNodes_ids (stmtCodes st) (s.counter + (m1 + 1)) n hn
        omega
      rw [hfix1, hchain1, hfix2]
      rw [show stmtListCodes (StmtList.snoc l st) = stmtListCodes l ++ stmtCodes st from rfl]
      rw [chainNodes_append (stmtListCodes l) (stmtCodes st) s.counter ?_]
      · rw [hm1, List.append_assoc]
      · intro hnil
        rw [hnil] at hm2
        cases hm2
    · simp only [connect_counter, hc2, hc1]
      omega
    · show (⟨(⟨s.counter, s.counter + m1⟩ : FlowSegment).first,
          (⟨s1.counter, s1.counter + m2⟩ : FlowSegment).last⟩ : FlowSegment) = _
      rw [show (⟨s.counter, s.counter + m1⟩ : FlowSegment).first = s.counter from rfl,
        show (⟨s1.counter, s1.counter + m2⟩ : FlowSegment).last = s1.counter + m2 from rfl,
        hc1]
      have : s.counter + (m1 + 1) + m2 = s.counter + (m1 + 1 + m2) := by omega
      rw [this]
end

theorem newNode_fst (l : String) (k : NodeKind) (s : BuildState) :
    (newNode l k s).1 = s.counter := rfl

theorem buildProgram_chain (p : StmtList) (hlin : linearStmtList p = true) :
    ∃ m, (stmtListCodes p).length = m + 1 ∧
      (buildProgram p initState).2.arena
        = chainTo 0 (stmtListCodes p) (m + 2)
            ++ [⟨m + 1, "START", [0], .startNode⟩, ⟨m + 2, "END", [], .endNode⟩] ∧
      (buildProgram p initState).1.first = m + 1 := by
  obtain ⟨m, hm, ha, hc, hseg⟩ := buildStmtList_chain p initState hlin
    (by intro n hn; cases hn)
  rcases hps : buildStmtList p initState with ⟨seg, s1⟩
  rw [hps] at ha hc hseg
  replace ha : s1.arena = initState.arena ++ chainNodes initState.counter (stmtListCodes p) := ha
  replace hc : s1.counter = initState.counter + (m + 1) := hc
  replace hseg : seg = ⟨0, initState.counter + m⟩ := hseg
  have ha2 : s1.arena = chainNodes 0 (stmtListCodes p) := by
    rw [ha]
    simp [initState]
  have hc2 : s1.counter = m + 1 := by
    rw [hc]
    simp [initState]
  have hseg2 : seg = ⟨0, m⟩ := by
    rw [hseg]
    simp [initState]
  subst hseg2
  simp only [buildProgram, hps]
  refine ⟨m, hm, ?_, ?_⟩
  · simp only [connect_arena, newNode_arena, newNode_counter, newNode_fst, List.map_append]
    rw [hc2, ha2]
    have hfix1 : (chainNodes 0 (stmtListCodes p)).map
        (fun x => if x.id = m + 1 then { x with next := x.next ++ [0] } else x)
        = chainNodes 0 (stmtListCodes p) := by
      refine connect_map_fix _ _ _ ?_
      intro n hn
      have := chainNodes_ids (stmtListCodes p) 0 n hn
      rw [hm] at this
      omega
    rw [hfix1]
    have hchain : (chainNodes 0 (stmtListCodes p)).map
        (fun x => if x.id = m then { x with next := x.next ++ [m + 1 + 1] } else x)
        = chainTo 0 (stmtListCodes p) (m + 1 + 1) :=
      chain_map_connect (stmtListCodes p) 0 (m + 1 + 1) m m hm (by omega)
    rw [hchain]
    simp [List.append_assoc]
    omega
  · show s1.counter = m + 1
    exact hc2

theorem findNode_cons_neg {a : FlowNode} {g : List FlowNode} {i : Nat} (h : a.id ≠ i) :
    findNode (a :: g) i = findNode g i := by
  unfold findNode
  rw [List.find?_cons_of_neg]
  simp
  exact h

theorem findNode_cons_pos {a : FlowNode} {g : List FlowNode} {i : Nat} (h : a.id = i) :
    findNode (a :: g) i = some a := by
  unfold findNode
  rw [List.find?_cons_of_pos]
  simp [h]

theorem findNode_append_right (g1 g2 : List FlowNode) (i : Nat)
    (h : ∀ n ∈ g1, n.id ≠ i) : findNode (g1 ++ g2) i = findNode g2 i := by
  induction g1 with
  | nil => rfl
  | cons a as ih =>
    rw [List.cons_append, findNode_cons_neg (h a (List.mem_cons_self a as))]
    exact ih (fun x hx => h x (List.mem_cons_of_mem a hx))

theorem findNode_chainTo (rest : List FlowNode) :
    ∀ (codes : List String) (c t j : Nat) (hj : j < codes.length),
      findNode (chainTo c codes t ++ rest) (c + j)
        = some ⟨c + j, "OP",
            [if j + 1 = codes.length then t else c + j + 1],
            .operationNode (codes.get ⟨j, hj⟩)⟩ := by
  intro codes
  induction codes with
  | nil =>
    intro c t j hj
    exact absurd hj (by simp)
  | cons code rest2 ih =>
    intro c t j hj
    cases rest2 with
    | nil =>
      have hj0 : j = 0 := by simp at hj; omega
      subst hj0
      rw [show chainTo c [code] t ++ rest
          = (⟨c, "OP", [t], .operationNode code⟩ : FlowNode) :: rest from rfl]
      rw [findNode_cons_pos (by simp)]
      simp
    | cons code2 rest3 =>
      cases j with
      | zero =>
        rw [show chainTo c (code :: code2 :: rest3) t ++ rest
            = (⟨c, "OP", [c + 1], .operationNode code⟩ : FlowNode)
              :: (chainTo (c + 1) (code2 :: rest3) t ++ rest) from rfl]
        rw [findNode_cons_pos (by simp)]
        rw [if_neg (by simp)]
        simp
      | succ j2 =>
        have hj2 : j2 < (code2 :: rest3).length := by simp at hj ⊢; omega
        rw [show chainTo c (code :: code2 :: rest3) t ++ rest
            = (⟨c, "OP", [c + 1], .operationNode code⟩ : FlowNode)
              :: (chainTo (c + 1) (code2 :: rest3) t ++ rest) from rfl]
        rw [findNode_cons_neg (by simp)]
        rw [show c + (j2 + 1) = (c + 1) + j2 from by omega]
        have hrec := ih (c + 1) t j2 hj2
        by_cases hcase : j2 + 1 = (code2 :: rest3).length
        · rw [if_pos hcase] at hrec
          rw [hrec, if_pos (by simp at hcase ⊢; omega)]
          rfl
        · rw [if_neg hcase] at hrec
          rw [hrec, if_neg (by simp at hcase ⊢; omega)]
          rw [show (c + 1) + j2 + 1 = c + (j2 + 1) + 1 from by omega]
          rfl

theorem walk_chain (A : List FlowNode) (tailId : Nat)
    (htail : ∀ (fuel2 : Nat) (st2 : GenState), tailId ∉ st2.visited →
        walk A (fuel2 + 1) st2 tailId
          = some ⟨st2.lines, st2.indent_level, tailId :: st2.visited⟩) :
    ∀ (codes : List String) (c fuel : Nat) (st : GenState),
      codes.length < fuel →
      (∀ j (hj : j < codes.length), findNode A (c + j)
          = some ⟨c + j, "OP", [if j + 1 = codes.length then tailId else c + j + 1],
              .operationNode (codes.get ⟨j, hj⟩)⟩) →
      (∀ j, j < codes.length → (c + j) ∉ st.visited) →
      tailId ∉ st.visited →
      (∀ j, j < codes.length → tailId ≠ c + j) →
      codes ≠ [] →
      walk A fuel st c
        = some ⟨st.lines ++ codes.map (fun code => indentOf st.indent_level ++ code),
            st.indent_level,
            tailId :: ((List.range' c codes.length).reverse ++ st.visited)⟩ := by
  intro codes
  induction codes with
  | nil =>
    intro c fuel st _ _ _ _ _ hne
    exact absurd rfl hne
  | cons code rest ih =>
    intro c fuel st hfuel hfind hfresh htnin htne _
    obtain ⟨f, rfl⟩ : ∃ f, fuel = f + 1 := ⟨fuel - 1, by omega⟩
    rw [walk]
    have hc0 : c ∉ st.visited := by
      have := hfresh 0 (by simp)
      simpa using this
    rw [if_neg hc0]
    have hfind0 := hfind 0 (by simp)
    rw [Nat.add_zero] at hfind0
    rw [hfind0]
    show walkSeq (walk A f) (emit { st with visited := c :: st.visited } code)
        [if 0 + 1 = (code :: rest).length then tailId else c + 0 + 1]
      = _
    cases rest with
    | nil =>
      rw [show (if 0 + 1 = ([code] : List String).length then tailId else c + 0 + 1) = tailId
        from by simp]
      rw [walkSeq]
      obtain ⟨f2, rfl⟩ : ∃ f2, f = f2 + 1 := by
        refine ⟨f - 1, ?_⟩
        have hf1 : ([code] : List String).length < f + 1 := hfuel
        simp at hf1
        omega
      have htnin1 : tailId ∉ (emit { st with visited := c :: st.visited } code).visited := by
        show tailId ∉ c :: st.visited
        intro hmem
        cases List.mem_cons.1 hmem with
        | inl hh => exact htne 0 (by simp) (by rw [Nat.add_zero]; exact hh)
        | inr hh => exact htnin hh
      rw [htail f2 (emit { st with visited := c :: st.visited } code) htnin1]
      simp only [obind]
      rw [walkSeq]
      simp [emit, List.range']
    | cons code2 rest2 =>
      rw [show (if 0 + 1 = (code :: code2 :: rest2).length then tailId else c + 0 + 1)
          = c + 1 from by simp]
      rw [walkSeq]
      have hfuel2 : (code2 :: rest2).length < f := by
        simp at hfuel ⊢
        omega
      have hfind2 : ∀ j (hj : j < (code2 :: rest2).length), findNode A ((c + 1) + j)
          = some ⟨(c + 1) + j, "OP",
              [if j + 1 = (code2 :: rest2).length then tailId else (c + 1) + j + 1],
              .operationNode ((code2 :: rest2).get ⟨j, hj⟩)⟩ := by
        intro j hj
        have h2 := hfind (j + 1) (by simp at hj ⊢; omega)
        rw [show c + (j + 1) = (c + 1) + j from by omega] at h2
        by_cases hcase : j + 1 = (code2 :: rest2).length
        · rw [if_pos (by simp at hcase ⊢; omega)] at h2
          rw [h2, if_pos hcase]
          rfl
        · rw [if_neg (by simp at hcase ⊢; omega)] at h2
          rw [h2, if_neg hcase]
          rfl
      have hfresh2 : ∀ j, j < (code2 :: rest2).length →
          ((c + 1) + j) ∉ (emit { st with visited := c :: st.visited } code).visited := by
        intro j hj
        show ((c + 1) + j) ∉ c :: st.visited
        intro hmem
        cases List.mem_cons.1 hmem with
        | inl hh => omega
        | inr hh =>
          have h3 := hfresh (j + 1) (by simp at hj ⊢; omega)
          rw [show c + (j + 1) = (c + 1) + j from by omega] at h3
          exact h3 hh
      have htnin2 : tailId ∉ (emit { st with visited := c :: st.visited } code).visited := by
        show tailId ∉ c :: st.visited
        intro hmem
        cases List.mem_cons.1 hmem with
        | inl hh => exact htne 0 (by simp) (by rw [Nat.add_zero]; exact hh)
        | inr hh => exact htnin hh
      have htne2 : ∀ j, j < (code2 :: rest2).length → tailId ≠ (c + 1) + j := by
        intro j hj
        have h4 := htne (j + 1) (by simp at hj ⊢; omega)
        rw [show c + (j + 1) = (c + 1) + j from by omega] at h4
        exact h4
      rw [ih (c + 1) f (emit { st with visited := c :: st.visited } code)
        hfuel2 hfind2 hfresh2 htnin2 htne2 (by simp)]
      simp only [obind]
      rw [walkSeq]
      simp [emit, List.range'_succ, List.append_assoc]

/-- A loop-free program regenerates as exactly its statement codes, one
indented line per source statement, in source order. -/
theorem generateLines_linear (p : StmtList) (hlin : linearStmtList p = true) :
    generateLines (builtArena p) (builtStart p)
      = some (["#include <stdio.h>", "", "int main() \x7b"]
          ++ (stmtListCodes p).map (fun code => indentOf 1 ++ code)
          ++ ["    return 0;", "\x7d"]) := by
  obtain ⟨m, hm, hA, hfirst⟩ := buildProgram_chain p hlin
  have hne : stmtListCodes p ≠ [] := by
    intro h
    rw [h] at hm
    cases hm
  show generateLines (buildProgram p initState).2.arena (buildProgram p initState).1.first = _
  rw [hA, hfirst]
  have hlen : (chainTo 0 (stmtListCodes p) (m + 2)
      ++ [(⟨m + 1, "START", [0], .startNode⟩ : FlowNode), ⟨m + 2, "END", [], .endNode⟩]).length
      = m + 3 := by
    simp [chainTo_length, hm]
  have hchainbound : ∀ n ∈ chainTo 0 (stmtListCodes p) (m + 2), n.id < m + 1 := by
    intro n hn
    have := chainTo_ids (stmtListCodes p) 0 (m + 2) n hn
    rw [hm] at this
    omega
  have hfindS : findNode (chainTo 0 (stmtListCodes p) (m + 2)
      ++ [(⟨m + 1, "START", [0], .startNode⟩ : FlowNode), ⟨m + 2, "END", [], .endNode⟩]) (m + 1)
      = some ⟨m + 1, "START", [0], .startNode⟩ := by
    rw [findNode_append_right _ _ _ (fun n hn => by have := hchainbound n hn; omega)]
    exact findNode_cons_pos rfl
  have hfindE : findNode (chainTo 0 (stmtListCodes p) (m + 2)
      ++ [(⟨m + 1, "START", [0], .startNode⟩ : FlowNode), ⟨m + 2, "END", [], .endNode⟩]) (m + 2)
      = some ⟨m + 2, "END", [], .endNode⟩ := by
    rw [findNode_append_right _ _ _ (fun n hn => by have := hchainbound n hn; omega)]
    rw [findNode_cons_neg (by simp)]
    exact findNode_cons_pos rfl
  have htail : ∀ (fuel2 : Nat) (st2 : GenState), (m + 2) ∉ st2.visited →
      walk (chainTo 0 (stmtListCodes p) (m + 2)
        ++ [(⟨m + 1, "START", [0], .startNode⟩ : FlowNode), ⟨m + 2, "END", [], .endNode⟩])
        (fuel2 + 1) st2 (m + 2)
      = some ⟨st2.lines, st2.indent_level, (m + 2) :: st2.visited⟩ := by
    intro fuel2 st2 hnin
    rw [walk, if_neg hnin, hfindE]
    show walkSeq _ { st2 with visited := (m + 2) :: st2.visited } [] = _
    rw [walkSeq]
  have hwalkchain := walk_chain _ (m + 2) htail (stmtListCodes p) 0 (m + 3)
      ⟨["#include <stdio.h>", "", "int main() \x7b"], 1, [m + 1]⟩
      (by rw [hm]; omega)
      (fun j hj => findNode_chainTo
        [(⟨m + 1, "START", [0], .startNode⟩ : FlowNode), ⟨m + 2, "END", [], .endNode⟩]
        (stmtListCodes p) 0 (m + 2) j hj)
      (by
        intro j hj hmem
        rw [hm] at hj
        simp at hmem
        omega)
      (by simp)
      (by
        intro j hj
        rw [hm] at hj
        omega)
      hne
  unfold generateLines
  simp only [emit, indentOf_zero_append, indentOf_zero, empty_append_str, List.nil_append,
    genState_lines, Nat.zero_add, List.singleton_append, List.cons_append]
  rw [hlen, walk]
  rw [if_neg (by simp)]
  rw [hfindS]
  show (match walkSeq (walk _ (m + 3))
      (⟨["#include <stdio.h>", "", "int main() \x7b"], 1, [m + 1]⟩ : GenState) [0] with
    | none => none
    | some st1 => some ((emit { emit st1 "return 0;" with
        indent_level := (emit st1 "return 0;").indent_level - 1 } "\x7d").lines)) = _
  rw [walkSeq, hwalkchain]
  simp only [obind]
  rw [walkSeq]
  simp only [emit, genState_lines]
  rw [indentOf_one_return]
  simp [indentOf_zero_append, List.append_assoc]

/-! ### Scaffold uniqueness and repetition bounds -/

theorem indent_line_ne {k : Nat} (hk : 1 ≤ k) (t s : String)
    (hs : s.toList.head? ≠ some ' ') : indentOf k ++ t ≠ s := by
  intro h
  obtain ⟨rest, hrest⟩ := indent_append_head k hk t
  rw [h] at hrest
  exact hs (by rw [hrest]; rfl)

theorem okWalkLine_indent {g : List FlowNode} {l : String} (h : okWalkLine g l) :
    ∃ k t, 1 ≤ k ∧ l = indentOf k ++ t := by
  obtain ⟨k, hk, hcase⟩ := h
  rcases hcase with ⟨n, hn, code, hkind, rfl⟩ | ⟨n, hn, cc, tb, fb, hkind, rfl⟩ | rfl | rfl
  · exact ⟨k, _, hk, rfl⟩
  · exact ⟨k, _, hk, rfl⟩
  · exact ⟨k, _, hk, rfl⟩
  · exact ⟨k, _, hk, rfl⟩

theorem okWalkLine_ne_return {g : List FlowNode} (hg : goodArena g) {l : String}
    (h : okWalkLine g l) : l ≠ "    return 0;" := by
  obtain ⟨k, hk, hcase⟩ := h
  have hAIret : afterIndent "    return 0;" = "return 0;".toList := by decide
  rcases hcase with ⟨n, hn, code, hkind, rfl⟩ | ⟨n, hn, cc, tb, fb, hkind, rfl⟩ | rfl | rfl
  · intro heq
    have hok := (hg n hn).1 code hkind
    have h1 : afterIndent (indentOf k ++ code) = code.toList := afterIndent_okCode hok k
    rw [heq, hAIret] at h1
    have hcodeEq : code = "return 0;" := by
      have h2 := congrArg String.mk h1
      exact h2.symm
    rw [hcodeEq] at hok
    exact absurd hok (by decide)
  · intro heq
    have h0 : ("if (" ++ cc ++ ") \x7b").toList
        = 'i' :: ('f' :: ' ' :: '(' :: (cc.toList ++ ") \x7b".toList)) := by
      rw [toList_append, toList_append]
      rfl
    have h1 : afterIndent (indentOf k ++ ("if (" ++ cc ++ ") \x7b"))
        = 'i' :: ('f' :: ' ' :: '(' :: (cc.toList ++ ") \x7b".toList)) := by
      rw [afterIndent_indent, afterIndent_of_head h0 (by decide), h0]
    rw [heq, hAIret] at h1
    injection h1 with hh
    exact absurd hh (by decide)
  · intro heq
    have h1 : afterIndent (indentOf k ++ "\x7d else \x7b") = "\x7d else \x7b".toList := by
      rw [afterIndent_indent]
      exact afterIndent_of_head (t := "\x7d else \x7b") rfl (by decide)
    rw [heq, hAIret] at h1
    exact absurd h1 (by decide)
  · intro heq
    have h1 : afterIndent (indentOf k ++ "\x7d") = "\x7d".toList := by
      rw [afterIndent_indent]
      exact afterIndent_of_head (t := "\x7d") rfl (by decide)
    rw [heq, hAIret] at h1
    exact absurd h1 (by decide)

theorem generateLines_counts (g : List FlowNode) (hg : goodArena g) (i : Nat) :
    ∃ Δ, generateLines g i
        = some (["#include <stdio.h>", "", "int main() \x7b"] ++ Δ
            ++ ["    return 0;", "\x7d"]) ∧
      (∀ s0 : String, s0.toList.head? ≠ some ' ' → Δ.countP (fun l => l == s0) = 0) ∧
      Δ.countP (fun l => l == "    return 0;") = 0 := by
  obtain ⟨Δ, st1, hw, hl, hgen, hok, hbal⟩ := generateLines_spec g i
  refine ⟨Δ, hgen, ?_, ?_⟩
  · intro s0 hs0
    rw [List.countP_eq_zero]
    intro l hl2
    obtain ⟨k, t, hk, rfl⟩ := okWalkLine_indent (hok l hl2)
    simp only [beq_iff_eq]
    exact indent_line_ne hk t s0 hs0
  · rw [List.countP_eq_zero]
    intro l hl2
    have hne := okWalkLine_ne_return hg (hok l hl2)
    simp only [beq_iff_eq]
    exact hne

theorem generate_norepeat (g : List FlowNode) (hg : goodArena g) {c : String}
    (hc : okCode c = true) (i : Nat) :
    ∃ Δ, generateLines g i
        = some (["#include <stdio.h>", "", "int main() \x7b"] ++ Δ
            ++ ["    return 0;", "\x7d"]) ∧
      codeLineCount c Δ ≤ opsWithCode g c [] := by
  obtain ⟨Δ, st1, hw, hl, hgen, hok, hbal⟩ := generateLines_spec g i
  refine ⟨Δ, hgen, ?_⟩
  have hpot := (walk_codecount g hg hc (g.length + 1)).1 _ _ _ hw
  rw [hl] at hpot
  unfold codeLineCount at hpot ⊢
  rw [List.countP_append] at hpot
  simp only [genState_lines, genState_visited] at hpot
  omega

theorem mem_setTrue_of_ne {s : BuildState} {x t : Nat} {n : FlowNode}
    (hn : n ∈ s.arena) (hne : n.id ≠ x) : n ∈ (setTrue x t s).arena := by
  simp only [setTrue, List.mem_map]
  refine ⟨n, hn, ?_⟩
  rw [if_neg hne]

theorem mem_setFalse_of_ne {s : BuildState} {x f : Nat} {n : FlowNode}
    (hn : n ∈ s.arena) (hne : n.id ≠ x) : n ∈ (setFalse x f s).arena := by
  simp only [setFalse, List.mem_map]
  refine ⟨n, hn, ?_⟩
  rw [if_neg hne]

/-- Every repeat construct ends in an exit marker node carrying the payload
"/* after repeat */", and that node is its fragment's exit. -/
theorem repeat_after_node (body : StmtList) (c : String) (s : BuildState) :
    ∃ n ∈ (buildStmt (.repeatStmt body c) s).2.arena,
      n.id = (buildStmt (.repeatStmt body c) s).1.last ∧
      n.kind = .operationNode "/* after repeat */" ∧ is_real n = true := by
  rcases hbs : buildStmtList body s with ⟨bseg, s1⟩
  simp only [buildStmt, hbs, newNode_fst, newNode_counter, connect_counter, setTrue_counter]
  refine ⟨⟨s1.counter + 1, "OP", [], .operationNode "/* after repeat */"⟩, ?_, rfl, rfl, rfl⟩
  apply mem_setFalse_of_ne
  · apply mem_setTrue_of_ne
    · rw [newNode_arena]
      simp only [connect_counter, newNode_counter]
      exact List.mem_append_right _ (List.mem_singleton.2 rfl)
    · show s1.counter + 1 ≠ s1.counter
      omega
  · show s1.counter + 1 ≠ s1.counter
    omega

/-! ### The claims -/

/-- C1: for every graph built from a grammatically valid program, every
condition node — from `if`, `while`, `for` and `repeat` alike — has both
branches assigned (`goodArena`), and the regenerated text is the scaffold
around lines that are each an operation code, an `if (...) \x7b` header, a
`\x7d else \x7b` opener or a `\x7d` closer — never a loop construct — with
the `if` headers and `else` openers in equal number: every condition is
rendered with both an `if` block and an `else` block. -/
theorem c1_every_condition_rendered_if_else (p : StmtList)
    (hv : validStmtList p = true) :
    goodArena (builtArena p) ∧
    ∃ Δ, generateLines (builtArena p) (builtStart p)
        = some (["#include <stdio.h>", "", "int main() \x7b"] ++ Δ
            ++ ["    return 0;", "\x7d"]) ∧
      (∀ l ∈ Δ, okWalkLine (builtArena p) l) ∧
      Δ.countP isIfLine = Δ.countP isElseLine := by
  have hg := builtArena_good hv
  obtain ⟨Δ, st1, hw, hl, hgen, hok, hbal⟩ :=
    generateLines_spec (builtArena p) (builtStart p)
  exact ⟨hg, Δ, hgen, hok, hbal hg⟩

/-- Witness for C1 at the one-assignment program. -/
theorem c1_witness :
    goodArena (builtArena (.single (.assign "a" "1"))) ∧
    ∃ Δ, generateLines (builtArena (.single (.assign "a" "1")))
        (builtStart (.single (.assign "a" "1")))
        = some (["#include <stdio.h>", "", "int main() \x7b"] ++ Δ
            ++ ["    return 0;", "\x7d"]) ∧
      (∀ l ∈ Δ, okWalkLine (builtArena (.single (.assign "a" "1"))) l) ∧
      Δ.countP isIfLine = Δ.countP isElseLine :=
  c1_every_condition_rendered_if_else (.single (.assign "a" "1")) (by decide)

/-- C2 (amended): the while-program's actual regenerated text carries an
extra "/* empty */" line inside the else block (from the empty statement the
trailing semicolon parses to), and in general a well-shaped code line is
emitted at most as many times as the arena holds operation nodes carrying
that code — the loop body, built once, is never re-emitted, as the back-edge
target is already visited. -/
theorem c2_no_reemission (g : List FlowNode) (hg : goodArena g) (c : String)
    (hc : okCode c = true) (i : Nat) :
    (compile "begin while a < 5 do a := a + 1; end."
      = .ok (String.intercalate "\n"
        ["#include <stdio.h>", "", "int main() \x7b", "    if ((a < 5)) \x7b",
         "        a = (a + 1);", "    \x7d else \x7b", "        /* after while */",
         "        /* empty */", "    \x7d", "    return 0;", "\x7d"])) ∧
    ∃ Δ, generateLines g i
        = some (["#include <stdio.h>", "", "int main() \x7b"] ++ Δ
            ++ ["    return 0;", "\x7d"]) ∧
      codeLineCount c Δ ≤ opsWithCode g c [] :=
  ⟨rfl, generate_norepeat g hg hc i⟩

/-- Witness for C2 at a one-node arena. -/
theorem c2_witness :
    (compile "begin while a < 5 do a := a + 1; end."
      = .ok (String.intercalate "\n"
        ["#include <stdio.h>", "", "int main() \x7b", "    if ((a < 5)) \x7b",
         "        a = (a + 1);", "    \x7d else \x7b", "        /* after while */",
         "        /* empty */", "    \x7d", "    return 0;", "\x7d"])) ∧
    ∃ Δ, generateLines [⟨0, "OP", [], .operationNode "x = 1;"⟩] 0
        = some (["#include <stdio.h>", "", "int main() \x7b"] ++ Δ
            ++ ["    return 0;", "\x7d"]) ∧
      codeLineCount "x = 1;" Δ
        ≤ opsWithCode [⟨0, "OP", [], .operationNode "x = 1;"⟩] "x = 1;" [] :=
  c2_no_reemission [⟨0, "OP", [], .operationNode "x = 1;"⟩]
    (by
      intro n hn
      rw [List.mem_singleton] at hn
      subst hn
      exact opNode_good (by decide))
    "x = 1;" (by decide) 0

set_option maxRecDepth 8192 in
/-- Counterexample to C2 as stated: the output of the while program is not
the claimed rendering — its else block holds "/* after while */" and then
"/* empty */", and the claimed text occurs nowhere in the output. -/
theorem c2_counterexample :
    compile "begin while a < 5 do a := a + 1; end."
      = .ok (String.intercalate "\n"
        ["#include <stdio.h>", "", "int main() \x7b", "    if ((a < 5)) \x7b",
         "        a = (a + 1);", "    \x7d else \x7b", "        /* after while */",
         "        /* empty */", "    \x7d", "    return 0;", "\x7d"]) ∧
    ¬ (("if ((a < 5)) \x7b a = (a + 1); \x7d else \x7b /* after while */ \x7d").toList
        <:+: (String.intercalate "\n"
          ["#include <stdio.h>", "", "int main() \x7b", "    if ((a < 5)) \x7b",
           "        a = (a + 1);", "    \x7d else \x7b", "        /* after while */",
           "        /* empty */", "    \x7d", "    return 0;", "\x7d"]).toList) :=
  ⟨rfl, by decide⟩

/-- C3 (amended): the regenerated output of the if/else program — its true
branch holds "a = 1;" followed by the absorbed "/* join */" and "/* empty */"
markers, its else branch exactly "a = 2;". -/
theorem c3_if_else_rendering :
    compile "begin if a > 0 then a := 1 else a := 2; end."
      = .ok "#include <stdio.h>\n\nint main() \x7b\n    if ((a > 0)) \x7b\n        a = 1;\n        /* join */\n        /* empty */\n    \x7d else \x7b\n        a = 2;\n    \x7d\n    return 0;\n\x7d" :=
  rfl

set_option maxRecDepth 8192 in
/-- Counterexample to C3 as stated: the true branch is not exactly `a = 1;`
(two marker lines follow it), and the claimed verbatim text occurs nowhere
in the output. -/
theorem c3_counterexample :
    compile "begin if a > 0 then a := 1 else a := 2; end."
      = .ok (String.intercalate "\n"
        ["#include <stdio.h>", "", "int main() \x7b", "    if ((a > 0)) \x7b",
         "        a = 1;", "        /* join */", "        /* empty */",
         "    \x7d else \x7b", "        a = 2;", "    \x7d", "    return 0;", "\x7d"]) ∧
    ¬ (("if ((a > 0)) \x7b a = 1; \x7d else \x7b a = 2; \x7d").toList
        <:+: ("#include <stdio.h>\n\nint main() \x7b\n    if ((a > 0)) \x7b\n        a = 1;\n        /* join */\n        /* empty */\n    \x7d else \x7b\n        a = 2;\n    \x7d\n    return 0;\n\x7d").toList) :=
  ⟨rfl, by decide⟩

/-- C4: building then regenerating a grammatically valid program always
yields text (the fuelled walk never runs out: each node is visited at most
once), the text is non-empty, and it has exactly one include line, one
entry-procedure opening, one success return and one closing brace. -/
theorem c4_terminates_with_unique_scaffold (p : StmtList)
    (hv : validStmtList p = true) :
    ∃ ls, generateLines (builtArena p) (builtStart p) = some ls ∧
      generate (builtArena p) (builtStart p) = some (String.intercalate "\n" ls) ∧
      String.intercalate "\n" ls ≠ "" ∧
      ls.countP (fun l => l == "#include <stdio.h>") = 1 ∧
      ls.countP (fun l => l == "int main() \x7b") = 1 ∧
      ls.countP (fun l => l == "    return 0;") = 1 ∧
      ls.countP (fun l => l == "\x7d") = 1 := by
  have hg := builtArena_good hv
  obtain ⟨Δ, hgen, hzero, hret⟩ := generateLines_counts (builtArena p) hg (builtStart p)
  refine ⟨_, hgen, ?_, ?_, ?_, ?_, ?_, ?_⟩
  · unfold generate
    rw [hgen]
    rfl
  · obtain ⟨r, hr⟩ := intercalate_shape "\n" "#include <stdio.h>"
      (["", "int main() \x7b"] ++ Δ ++ ["    return 0;", "\x7d"])
    have hr2 : String.intercalate "\n"
        (["#include <stdio.h>", "", "int main() \x7b"] ++ Δ ++ ["    return 0;", "\x7d"])
        = "#include <stdio.h>" ++ r := hr
    rw [hr2]
    intro hcontra
    have h1 : ("#include <stdio.h>" ++ r).toList = '#' :: ("include <stdio.h>".toList ++ r.toList) :=
      toList_cons_append rfl r
    rw [hcontra] at h1
    exact List.noConfusion h1
  · rw [List.countP_append, List.countP_append, hzero "#include <stdio.h>" (by decide)]
    decide
  · rw [List.countP_append, List.countP_append, hzero "int main() \x7b" (by decide)]
    decide
  · rw [List.countP_append, List.countP_append, hret]
    decide
  · rw [List.countP_append, List.countP_append, hzero "\x7d" (by decide)]
    decide

/-- Witness for C4 at the one-assignment program. -/
theorem c4_witness :
    ∃ ls, generateLines (builtArena (.single (.assign "a" "1")))
        (builtStart (.single (.assign "a" "1"))) = some ls ∧
      generate (builtArena (.single (.assign "a" "1")))
        (builtStart (.single (.assign "a" "1"))) = some (String.intercalate "\n" ls) ∧
      String.intercalate "\n" ls ≠ "" ∧
      ls.countP (fun l => l == "#include <stdio.h>") = 1 ∧
      ls.countP (fun l => l == "int main() \x7b") = 1 ∧
      ls.countP (fun l => l == "    return 0;") = 1 ∧
      ls.countP (fun l => l == "\x7d") = 1 :=
  c4_terminates_with_unique_scaffold (.single (.assign "a" "1")) (by decide)

/-- C5 (amended): both `writeln` and `write` dispatch, case-insensitively, to
the same single formatted print whose format string has one `%d` per
argument, space-separated, and always ends in a newline escape; for two
arguments the emitted code is printf("%d %d\n", a, b); — the two builtins
emit identical code, not code differing in a trailing newline. -/
theorem c5_write_writeln_same (f : String) (args : List String)
    (hf : lowerString f = "writeln" ∨ lowerString f = "write") :
    ioCode f args = printfCode args ∧ ioCode f args = ioCode "writeln" args ∧
    ∀ a b : String,
      printfCode [a, b] = "printf(\"%d %d\\n\", " ++ ((a ++ ", ") ++ b) ++ ");" := by
  refine ⟨?_, ?_, ?_⟩
  · unfold ioCode
    rw [if_pos hf]
  · unfold ioCode
    rw [if_pos hf, if_pos (show lowerString "writeln" = "writeln"
      ∨ lowerString "writeln" = "write" from Or.inl rfl)]
  · intro a b
    rfl

/-- Witness for C5 at a capitalised `Write` with one argument. -/
theorem c5_witness :
    ioCode "Write" ["x"] = printfCode ["x"] ∧
    ioCode "Write" ["x"] = ioCode "writeln" ["x"] ∧
    ∀ a b : String,
      printfCode [a, b] = "printf(\"%d %d\\n\", " ++ ((a ++ ", ") ++ b) ++ ");" :=
  c5_write_writeln_same "Write" ["x"] (Or.inr rfl)

/-- Counterexample to C5 as stated: `write` emits exactly the code `writeln`
emits, newline escape included — the claimed missing trailing newline does
not exist. -/
theorem c5_counterexample :
    ioCode "write" ["a", "b"] = ioCode "writeln" ["a", "b"] ∧
    ioCode "write" ["a", "b"] = "printf(\"%d %d\\n\", a, b);" :=
  ⟨rfl, rfl⟩

/-- C6: grammar violations surface as a syntax error naming the offending
token (or EOF), unrecognized characters as a lexical error naming the
character and line, and in either case the pipeline returns the error and
produces no output text; `begin a := end.` fails naming the token `end`. -/
theorem c6_errors_propagate :
    compile "begin a := end." = .error "Syntax error at 'end'" ∧
    compile "begin @ end." = .error "Illegal character '@' at line 1" ∧
    (∀ src e, tokenize src = .error e → compile src = .error (renderLexErr e)) ∧
    (∀ src toks e, tokenize src = .ok toks → parseProgramToks toks = .error e →
      compile src = .error (renderSynErr e)) := by
  refine ⟨rfl, rfl, ?_, ?_⟩
  · intro src e he
    unfold compile
    simp only [he]
  · intro src toks e ht hp
    unfold compile
    simp only [ht, hp]

/-- Witness for C6 at the input consisting of one illegal character. -/
theorem c6_witness :
    tokenize "?" = .error ⟨'?', 1⟩ ∧ compile "?" = .error (renderLexErr ⟨'?', 1⟩) :=
  ⟨rfl, c6_errors_propagate.2.2.1 "?" ⟨'?', 1⟩ rfl⟩

/-- C7 (amended): `begin a := 1; end.` builds a four-node graph — the
trailing semicolon parses to an empty statement whose marker node sits
between the assignment and Exit: Entry → Op("a = 1;") → Op("/* empty */") →
Exit — and the output contains the line `a = 1;` with no conditional block. -/
theorem c7_actual_graph :
    tokenize "begin a := 1; end."
      = .ok [⟨.BEGIN, "begin"⟩, ⟨.ID, "a"⟩, ⟨.ASSIGN, ":="⟩, ⟨.INT, "1"⟩,
             ⟨.SEMI, ";"⟩, ⟨.END, "end"⟩, ⟨.DOT, "."⟩] ∧
    parseProgramToks [⟨.BEGIN, "begin"⟩, ⟨.ID, "a"⟩, ⟨.ASSIGN, ":="⟩, ⟨.INT, "1"⟩,
        ⟨.SEMI, ";"⟩, ⟨.END, "end"⟩, ⟨.DOT, "."⟩]
      = .ok (.snoc (.single (.assign "a" "1")) .emptyStmt) ∧
    (builtArena (.snoc (.single (.assign "a" "1")) .emptyStmt)).map
        (fun n => (n.id, n.label, n.next, n.kind))
      = [(0, "OP", [1], .operationNode "a = 1;"),
         (1, "OP", [3], .operationNode "/* empty */"),
         (2, "START", [0], .startNode),
         (3, "END", [], .endNode)] ∧
    builtStart (.snoc (.single (.assign "a" "1")) .emptyStmt) = 2 ∧
    compile "begin a := 1; end."
      = .ok "#include <stdio.h>\n\nint main() \x7b\n    a = 1;\n    /* empty */\n    return 0;\n\x7d" ∧
    (String.intercalate "\n" ["#include <stdio.h>", "", "int main() \x7b", "    a = 1;",
        "    /* empty */", "    return 0;", "\x7d"]).toList
      = ("#include <stdio.h>\n\nint main() \x7b\n    a = 1;\n    /* empty */\n    return 0;\n\x7d").toList ∧
    "    a = 1;" ∈ ["#include <stdio.h>", "", "int main() \x7b", "    a = 1;",
        "    /* empty */", "    return 0;", "\x7d"] ∧
    (["#include <stdio.h>", "", "int main() \x7b", "    a = 1;", "    /* empty */",
        "    return 0;", "\x7d"].countP isIfLine) = 0 :=
  ⟨rfl, rfl, rfl, rfl, rfl, rfl, by decide, by decide⟩

/-- Counterexample to C7 as stated: the graph for `begin a := 1; end.` has
four nodes, not three. -/
theorem c7_counterexample :
    parseProgramToks [⟨.BEGIN, "begin"⟩, ⟨.ID, "a"⟩, ⟨.ASSIGN, ":="⟩, ⟨.INT, "1"⟩,
        ⟨.SEMI, ";"⟩, ⟨.END, "end"⟩, ⟨.DOT, "."⟩]
      = .ok (.snoc (.single (.assign "a" "1")) .emptyStmt) ∧
    (builtArena (.snoc (.single (.assign "a" "1")) .emptyStmt)).length = 4 :=
  ⟨rfl, rfl⟩

/-- C8: a grammatically producible program free of conditionals and loops
regenerates as exactly its statement codes, one indented line per source
statement, in source order, between the scaffold lines. -/
theorem c8_linear_order (p : StmtList) (hlin : linearStmtList p = true) :
    generateLines (builtArena p) (builtStart p)
      = some (["#include <stdio.h>", "", "int main() \x7b"]
          ++ (stmtListCodes p).map (fun code => "    " ++ code)
          ++ ["    return 0;", "\x7d"]) := by
  have h := generateLines_linear p hlin
  rw [show (fun code => indentOf 1 ++ code) = (fun code => "    " ++ code)
    from funext (fun code => rfl)] at h
  exact h

/-- Witness for C8 at a two-statement linear program. -/
theorem c8_witness :
    generateLines (builtArena (.snoc (.single (.assign "b" "2")) (.ioStmt "writeln" ["b"])))
        (builtStart (.snoc (.single (.assign "b" "2")) (.ioStmt "writeln" ["b"])))
      = some (["#include <stdio.h>", "", "int main() \x7b"]
          ++ (stmtListCodes (.snoc (.single (.assign "b" "2"))
              (.ioStmt "writeln" ["b"]))).map (fun code => "    " ++ code)
          ++ ["    return 0;", "\x7d"]) :=
  c8_linear_order (.snoc (.single (.assign "b" "2")) (.ioStmt "writeln" ["b"])) (by decide)

/-- C9 (amended): within one graph ids are unique, and a second graph built
while the counter keeps running gets ids disjoint from the first — but two
graphs built from independent fresh counters both start at id 0, so their id
sets are not disjoint (both assignments here yield ids 0, 1, 2). -/
theorem c9_ids_unique_but_counters_restart :
    (∀ p, (builtIds p).Nodup) ∧
    (∀ p q, ∃ newIds,
        (buildProgram q (buildProgram p initState).2).2.arena.map FlowNode.id
          = builtIds p ++ newIds ∧ ∀ i ∈ newIds, i ∉ builtIds p) ∧
    builtIds (.single (.assign "a" "1")) = [0, 1, 2] ∧
    builtIds (.single (.ioStmt "writeln" ["a"])) = [0, 1, 2] :=
  ⟨builtIds_nodup, sequential_ids_fresh, rfl, rfl⟩

/-- Counterexample to C9 as stated: two graphs built from independent fresh
counters share the id 0 — their id sets are not disjoint. -/
theorem c9_counterexample :
    0 ∈ builtIds (.single (.assign "a" "1")) ∧
    0 ∈ builtIds (.single (.ioStmt "writeln" ["a"])) :=
  ⟨by decide, by decide⟩

/-- C10: every repeat construct creates an exit marker node with payload
"/* after repeat */" as its fragment's exit; that payload is missing from
the visualization's sentinel set (which holds exactly the empty, join,
after-while and after-for markers), so the repeat exit marker classifies as
a real node while those four marker payloads classify as service markers. -/
theorem c10_repeat_marker_real :
    (∀ (body : StmtList) (c : String) (s : BuildState),
      ∃ n ∈ (buildStmt (.repeatStmt body c) s).2.arena,
        n.id = (buildStmt (.repeatStmt body c) s).1.last ∧
        n.kind = .operationNode "/* after repeat */" ∧ is_real n = true) ∧
    ("/* after repeat */" ∉ SERVICE_MARKERS) ∧
    SERVICE_MARKERS = ["/* empty */", "/* join */", "/* after while */", "/* after for */"] ∧
    (∀ (i : Nat) (nx : List Nat),
      is_real ⟨i, "OP", nx, .operationNode "/* empty */"⟩ = false ∧
      is_real ⟨i, "OP", nx, .operationNode "/* join */"⟩ = false ∧
      is_real ⟨i, "OP", nx, .operationNode "/* after while */"⟩ = false ∧
      is_real ⟨i, "OP", nx, .operationNode "/* after for */"⟩ = false) := by
  refine ⟨repeat_after_node, by decide, rfl, ?_⟩
  intro i nx
  exact ⟨rfl, rfl, rfl, rfl⟩
